import Mathlib

/-!
# Verification of the infinity-mirror export/verification subsystem

This file embeds the export/verification core of the repository
(`generateSignature`, `verifySignature`, `captureCanvasSnapshot`,
`serializeConfiguration`, `createExportZip`, `sendToManufacturer`,
`validateImportedConfig`) as executable Lean definitions and settles the
frozen claims about it.

Modelling conventions:
* JSON values are the inductive `Json` below; object fields keep their
  insertion order, exactly as JavaScript objects do.
* `JSON.stringify` is embedded as `serVal` (parameterised by the `gap`
  argument: `[]` for `JSON.stringify(data)` and two spaces for
  `JSON.stringify(data, null, 2)`), following the ECMA-262 serialization
  algorithm restricted to the value shapes the program produces.
* JSON numbers are modelled as integers (`Int`); every number the claims
  exercise is integral, and none of the claims depends on floating-point
  formatting.
* `JSON.parse` is embedded as a fuel-based parser `parseVal`; duplicate
  object keys are kept in order of appearance (the repository never
  produces duplicate keys).
* SHA-256 (`crypto.subtle.digest('SHA-256', …)`) is embedded bit-faithfully
  over byte lists, with 32-bit words as `Nat` reduced mod `2^32`.
* The zip container layer (JSZip) is abstracted as a name-keyed list of
  entries; `ZipInput.malformed` stands for byte sequences on which
  `JSZip.loadAsync` rejects.
-/

mutual
/-- JSON values.  Mirrors the JavaScript value space the export subsystem
traffics in; object fields are an ordered association list, as in JS. -/
inductive Json where
  | null : Json
  | bool (b : Bool) : Json
  | num (n : Int) : Json
  | str (s : String) : Json
  | arr (elems : JsonList) : Json
  | obj (fields : JsonFields) : Json

/-- A list of JSON array elements. -/
inductive JsonList where
  | nil : JsonList
  | cons (hd : Json) (tl : JsonList) : JsonList

/-- An ordered association list of JSON object fields. -/
inductive JsonFields where
  | nil : JsonFields
  | cons (key : String) (val : Json) (tl : JsonFields) : JsonFields
end

/-- Ordered list of an object's fields, for stating permutation facts. -/
def JsonFields.toList : JsonFields → List (String × Json)
  | .nil => []
  | .cons k v t => (k, v) :: t.toList

/-- Decimal digit character. -/
def natDigitChar (d : Nat) : Char := Char.ofNat (48 + d)

/-- Big-endian decimal digits of `n`, with fuel (structural, so the kernel
can evaluate it). -/
def natToCharsAux : Nat → Nat → List Char
  | 0, _ => []
  | fuel+1, n => if n < 10 then [natDigitChar n] else natToCharsAux fuel (n / 10) ++ [natDigitChar (n % 10)]

/-- Decimal rendering of a natural number, as JavaScript renders integral
numbers. -/
def natToChars (n : Nat) : List Char := natToCharsAux (n + 1) n

/-- Decimal rendering of an integer, as JavaScript renders integral
numbers. -/
def intToChars : Int → List Char
  | .ofNat n => natToChars n
  | .negSucc n => '-' :: natToChars (n + 1)

/-- Lowercase hexadecimal digit character (as produced by JS
`toString(16)`). -/
def hexDigitChar (d : Nat) : Char :=
  if d < 10 then Char.ofNat (48 + d) else Char.ofNat (87 + d)

/-- The escape of one character inside a JSON string literal, per the
ECMA-262 `QuoteJSONString` algorithm used by `JSON.stringify`. -/
def escapeChar (c : Char) : List Char :=
  if c = '"' then ['\\', '"']
  else if c = '\\' then ['\\', '\\']
  else if c = '\x08' then ['\\', 'b']
  else if c = '\x0c' then ['\\', 'f']
  else if c = '\n' then ['\\', 'n']
  else if c = '\r' then ['\\', 'r']
  else if c = '\t' then ['\\', 't']
  else if c.toNat < 32 then ['\\', 'u', '0', '0', hexDigitChar (c.toNat / 16), hexDigitChar (c.toNat % 16)]
  else [c]

/-- Escape every character of a JSON string body. -/
def escapeChars : List Char → List Char
  | [] => []
  | c :: cs => escapeChar c ++ escapeChars cs

/-- A quoted JSON string literal. -/
def quoteChars (s : String) : List Char := '"' :: (escapeChars s.data ++ ['"'])

/-- Member separator used by `JSON.stringify`: `","` in compact mode,
`",\n" ++ indent` in pretty mode. -/
def serSep (gap indent : List Char) : List Char :=
  if gap = [] then [','] else ',' :: '\n' :: indent

mutual
/-- `JSON.stringify` (ECMA-262 `SerializeJSONProperty`) with gap string
`gap` and current indentation `indent`; `gap = []` is the compact form
`JSON.stringify(v)` used as the signing input, `gap` two spaces the
2-space pretty form `JSON.stringify(v, null, 2)` stored in the archive. -/
def serVal (gap indent : List Char) (j : Json) : List Char :=
  match j with
  | .null => (['n', 'u', 'l', 'l'] : List Char)
  | .bool true => (['t', 'r', 'u', 'e'] : List Char)
  | .bool false => (['f', 'a', 'l', 's', 'e'] : List Char)
  | .num n => intToChars n
  | .str s => quoteChars s
  | .arr l =>
      match l with
      | .nil => ['[', ']']
      | .cons _ _ =>
          if gap = [] then
            '[' :: (serElems gap indent true l ++ [']'])
          else
            '[' :: '\n' :: ((indent ++ gap) ++ serElems gap (indent ++ gap) true l ++ '\n' :: indent ++ [']'])
  | .obj l =>
      match l with
      | .nil => ['{', '}']
      | .cons _ _ _ =>
          if gap = [] then
            '{' :: (serFields gap indent true l ++ ['}'])
          else
            '{' :: '\n' :: ((indent ++ gap) ++ serFields gap (indent ++ gap) true l ++ '\n' :: indent ++ ['}'])
termination_by structural j

/-- Serialize array elements, prefixing every element but the first with the
member separator. -/
def serElems (gap indent : List Char) (first : Bool) (l : JsonList) : List Char :=
  match l with
  | .nil => []
  | .cons h t =>
      (if first then [] else serSep gap indent) ++ serVal gap indent h ++ serElems gap indent false t
termination_by structural l

/-- Serialize object members (quoted key, colon — with a trailing space in
pretty mode — then the value), prefixing every member but the first with the
member separator. -/
def serFields (gap indent : List Char) (first : Bool) (l : JsonFields) : List Char :=
  match l with
  | .nil => []
  | .cons k v t =>
      (if first then [] else serSep gap indent) ++
        quoteChars k ++ (if gap = [] then [':'] else [':', ' ']) ++ serVal gap indent v ++
        serFields gap indent false t
termination_by structural l
end

/-- `JSON.stringify(data)` — the canonical serialization used as the signing
input in `generateSignature`. -/
def canonicalSerialize (j : Json) : String := String.mk (serVal [] [] j)

/-- `JSON.stringify(data, null, 2)` — the pretty serialization written to the
archive's `configuration.json`. -/
def prettySerialize (j : Json) : String := String.mk (serVal [' ', ' '] [] j)

/-! ## SHA-256 (`crypto.subtle.digest('SHA-256', …)`)

A bit-faithful embedding of FIPS 180-4 SHA-256 over byte lists, with 32-bit
words represented as `Nat` reduced modulo `2^32`. -/
/-- `2^32`, the word modulus. -/
def M32 : Nat := 4294967296

/-- Addition modulo `2^32`. -/
def add32 (a b : Nat) : Nat := (a + b) % M32

/-- Right rotation of a 32-bit word. -/
def rotr32 (n a : Nat) : Nat := (a >>> n) ||| ((a <<< (32 - n)) % M32)

/-- `Ch(x,y,z)`; 32-bit complement taken as xor with `2^32 - 1`. -/
def chF (x y z : Nat) : Nat := (x &&& y) ^^^ ((x ^^^ 4294967295) &&& z)

/-- `Maj(x,y,z)`. -/
def majF (x y z : Nat) : Nat := (x &&& y) ^^^ (x &&& z) ^^^ (y &&& z)

/-- FIPS 180-4 `Σ₀`. -/
def bigSigma0 (x : Nat) : Nat := rotr32 2 x ^^^ rotr32 13 x ^^^ rotr32 22 x

/-- FIPS 180-4 `Σ₁`. -/
def bigSigma1 (x : Nat) : Nat := rotr32 6 x ^^^ rotr32 11 x ^^^ rotr32 25 x

/-- FIPS 180-4 `σ₀`. -/
def smallSigma0 (x : Nat) : Nat := rotr32 7 x ^^^ rotr32 18 x ^^^ (x >>> 3)

/-- FIPS 180-4 `σ₁`. -/
def smallSigma1 (x : Nat) : Nat := rotr32 17 x ^^^ rotr32 19 x ^^^ (x >>> 10)

/-- The 64 SHA-256 round constants. -/
def K256 : List Nat :=
  [1116352408, 1899447441, 3049323471, 3921009573, 961987163, 1508970993,
   2453635748, 2870763221, 3624381080, 310598401, 607225278, 1426881987,
   1925078388, 2162078206, 2614888103, 3248222580, 3835390401, 4022224774,
   264347078, 604807628, 770255983, 1249150122, 1555081692, 1996064986,
   2554220882, 2821834349, 2952996808, 3210313671, 3336571891, 3584528711,
   113926993, 338241895, 666307205, 773529912, 1294757372, 1396182291,
   1695183700, 1986661051, 2177026350, 2456956037, 2730485921, 2820302411,
   3259730800, 3345764771, 3516065817, 3600352804, 4094571909, 275423344,
   430227734, 506948616, 659060556, 883997877, 958139571, 1322822218,
   1537002063, 1747873779, 1955562222, 2024104815, 2227730452, 2361852424,
   2428436474, 2756734187, 3204031479, 3329325298]

/-- The SHA-256 working state: eight 32-bit words. -/
structure Hash8 where
  a : Nat
  b : Nat
  c : Nat
  d : Nat
  e : Nat
  f : Nat
  g : Nat
  h : Nat

/-- The SHA-256 initial hash value. -/
def sha256Init : Hash8 :=
  ⟨0x6a09e667, 0xbb67ae85, 0x3c6ef372, 0xa54ff53a, 0x510e527f, 0x9b05688c, 0x1f83d9ab, 0x5be0cd19⟩

/-- SHA-256 message padding: `0x80`, zeros to 56 mod 64, then the bit length
as eight big-endian bytes. -/
def sha256pad (msg : List Nat) : List Nat :=
  let len := msg.length
  let bitLen := 8 * len
  msg ++ 128 :: List.replicate ((119 - len % 64) % 64) 0 ++
    [(bitLen >>> 56) % 256, (bitLen >>> 48) % 256, (bitLen >>> 40) % 256, (bitLen >>> 32) % 256,
     (bitLen >>> 24) % 256, (bitLen >>> 16) % 256, (bitLen >>> 8) % 256, bitLen % 256]

/-- Split into 64-byte blocks (fuel-based so it stays structural). -/
def chunk64 : Nat → List Nat → List (List Nat)
  | 0, _ => []
  | _, [] => []
  | fuel+1, l => l.take 64 :: chunk64 fuel (l.drop 64)

/-- Big-endian 4-byte groups to 32-bit words. -/
def bytesToWords : List Nat → List Nat
  | b0 :: b1 :: b2 :: b3 :: rest =>
      (b0 * 16777216 + b1 * 65536 + b2 * 256 + b3) :: bytesToWords rest
  | _ => []

/-- Message-schedule extension, over the reversed word list (head is the
most recent word); runs 48 steps. -/
def scheduleRev : Nat → List Nat → List Nat
  | 0, ws => ws
  | fuel+1, ws =>
      scheduleRev fuel
        (add32 (add32 (smallSigma1 (ws.getD 1 0)) (ws.getD 6 0))
          (add32 (smallSigma0 (ws.getD 14 0)) (ws.getD 15 0)) :: ws)

/-- One SHA-256 round, consuming a `(Kₜ, Wₜ)` pair. -/
def roundStep (st : Hash8) (kw : Nat × Nat) : Hash8 :=
  let t1 := add32 (add32 (add32 st.h (bigSigma1 st.e)) (add32 (chF st.e st.f st.g) kw.1)) kw.2
  let t2 := add32 (bigSigma0 st.a) (majF st.a st.b st.c)
  ⟨add32 t1 t2, st.a, st.b, st.c, add32 st.d t1, st.e, st.f, st.g⟩

/-- Compress one 64-byte block into the running hash state. -/
def processBlock (st : Hash8) (block : List Nat) : Hash8 :=
  let ws := (scheduleRev 48 (bytesToWords block).reverse).reverse
  let c := (K256.zip ws).foldl roundStep st
  ⟨add32 st.a c.a, add32 st.b c.b, add32 st.c c.c, add32 st.d c.d,
   add32 st.e c.e, add32 st.f c.f, add32 st.g c.g, add32 st.h c.h⟩

/-- The SHA-256 digest of a byte list, as its eight 32-bit words. -/
def sha256words (msg : List Nat) : List Nat :=
  let padded := sha256pad msg
  let st := (chunk64 padded.length padded).foldl processBlock sha256Init
  [st.a, st.b, st.c, st.d, st.e, st.f, st.g, st.h]

/-- Big-endian bytes of a word list. -/
def wordsToBytes : List Nat → List Nat
  | [] => []
  | w :: ws => (w >>> 24) % 256 :: (w >>> 16) % 256 :: (w >>> 8) % 256 :: w % 256 :: wordsToBytes ws

/-- Two lowercase hex characters per byte — the JS
`b.toString(16).padStart(2, '0')` step of `generateSignature`. -/
def bytesToHexChars : List Nat → List Char
  | [] => []
  | b :: bs => hexDigitChar (b / 16 % 16) :: hexDigitChar (b % 16) :: bytesToHexChars bs

/-- The lowercase hex SHA-256 digest of a byte list, exactly as the hash
array is hex-joined in `generateSignature`. -/
def sha256hex (msg : List Nat) : String :=
  String.mk (bytesToHexChars (wordsToBytes (sha256words msg)))

/-- UTF-8 encoding of one scalar value (the `TextEncoder` step). -/
def charUtf8 (c : Char) : List Nat :=
  let n := c.toNat
  if n < 128 then [n]
  else if n < 2048 then [192 + n / 64, 128 + n % 64]
  else if n < 65536 then [224 + n / 4096, 128 + n / 64 % 64, 128 + n % 64]
  else [240 + n / 262144, 128 + n / 4096 % 64, 128 + n / 64 % 64, 128 + n % 64]

/-- UTF-8 encoding of a character list. -/
def utf8Bytes : List Char → List Nat
  | [] => []
  | c :: cs => charUtf8 c ++ utf8Bytes cs

/-- `new TextEncoder().encode(s)`. -/
def utf8Encode (s : String) : List Nat := utf8Bytes s.data

/-! ## `JSON.parse`

A fuel-based parser for the JSON grammar, as used by `validateImportedConfig`
on the text of the `configuration.json` entry.  Numbers are restricted to
integers (see the header); duplicate object keys are kept in order of
appearance.  Fuel is structural so the kernel can evaluate the parser. -/
/-- JSON whitespace. -/
def isJsonWs (c : Char) : Bool := decide (c = ' ' ∨ c = '\t' ∨ c = '\n' ∨ c = '\r')

/-- ASCII decimal digit. -/
def isDigitChar (c : Char) : Bool := decide (48 ≤ c.toNat ∧ c.toNat ≤ 57)

/-- Drop leading JSON whitespace. -/
def skipWs : List Char → List Char
  | [] => []
  | c :: cs => if isJsonWs c then skipWs cs else c :: cs

/-- Value of a hexadecimal digit character (either case), for `\u` escapes. -/
def hexVal (c : Char) : Option Nat :=
  if 48 ≤ c.toNat ∧ c.toNat ≤ 57 then some (c.toNat - 48)
  else if 97 ≤ c.toNat ∧ c.toNat ≤ 102 then some (c.toNat - 87)
  else if 65 ≤ c.toNat ∧ c.toNat ≤ 70 then some (c.toNat - 55)
  else none

/-- Parse the body of a JSON string literal (the opening quote already
consumed), unescaping as `JSON.parse` does; `acc` holds the characters read
so far, reversed. -/
def parseStringBody : List Char → List Char → Except String (String × List Char)
  | _, [] => .error "Unterminated string in JSON"
  | acc, c :: cs =>
    if c = '"' then .ok (String.mk acc.reverse, cs)
    else if c = '\\' then
      match cs with
      | [] => .error "Bad escape in JSON string"
      | e :: cs2 =>
        if e = '"' then parseStringBody ('"' :: acc) cs2
        else if e = '\\' then parseStringBody ('\\' :: acc) cs2
        else if e = '/' then parseStringBody ('/' :: acc) cs2
        else if e = 'b' then parseStringBody ('\x08' :: acc) cs2
        else if e = 'f' then parseStringBody ('\x0c' :: acc) cs2
        else if e = 'n' then parseStringBody ('\n' :: acc) cs2
        else if e = 'r' then parseStringBody ('\r' :: acc) cs2
        else if e = 't' then parseStringBody ('\t' :: acc) cs2
        else if e = 'u' then
          match cs2 with
          | h1 :: h2 :: h3 :: h4 :: cs3 =>
            match hexVal h1, hexVal h2, hexVal h3, hexVal h4 with
            | some d1, some d2, some d3, some d4 =>
                parseStringBody (Char.ofNat (4096 * d1 + 256 * d2 + 16 * d3 + d4) :: acc) cs3
            | _, _, _, _ => .error "Bad unicode escape in JSON string"
          | _ => .error "Bad unicode escape in JSON string"
        else .error "Bad escape in JSON string"
    else parseStringBody (c :: acc) cs

/-- Consume a run of decimal digits, accumulating their value. -/
def parseDigits : List Char → Nat → Nat × List Char
  | [], acc => (acc, [])
  | c :: cs, acc => if isDigitChar c then parseDigits cs (10 * acc + (c.toNat - 48)) else (acc, c :: cs)

/-- Reject the fraction/exponent forms that fall outside the integer model
of JSON numbers. -/
def numGuard (j : Json) (rest : List Char) : Except String (Json × List Char) :=
  match rest with
  | c :: _ =>
      if c = '.' ∨ c = 'e' ∨ c = 'E' then .error "Non-integral JSON numbers are outside this model"
      else .ok (j, rest)
  | [] => .ok (j, rest)

/-- Parse a JSON number (integral). -/
def parseNumber (cs : List Char) : Except String (Json × List Char) :=
  match cs with
  | [] => .error "Unexpected end of JSON input"
  | c :: rest =>
    if c = '-' then
      match rest with
      | [] => .error "Unexpected token - in JSON"
      | c2 :: rest2 =>
        if isDigitChar c2 then
          let p := parseDigits rest2 (c2.toNat - 48)
          numGuard (.num (-(p.1 : Int))) p.2
        else .error "Unexpected token - in JSON"
    else if isDigitChar c then
      let p := parseDigits rest (c.toNat - 48)
      numGuard (.num (p.1 : Int)) p.2
    else .error "Unexpected token in JSON"

/-- Does the list begin with the given character? -/
def headIs (l : List Char) (d : Char) : Bool :=
  match l with
  | c :: _ => c == d
  | [] => false

mutual
/-- Parse one JSON value (after skipping leading whitespace). -/
def parseVal : Nat → List Char → Except String (Json × List Char)
  | 0, _ => .error "JSON nesting depth limit exceeded"
  | fuel+1, cs =>
    match skipWs cs with
    | [] => .error "Unexpected end of JSON input"
    | c :: rest =>
      if c = 'n' then
        match rest with
        | 'u' :: 'l' :: 'l' :: rest2 => .ok (.null, rest2)
        | _ => .error "Unexpected token n in JSON"
      else if c = 't' then
        match rest with
        | 'r' :: 'u' :: 'e' :: rest2 => .ok (.bool true, rest2)
        | _ => .error "Unexpected token t in JSON"
      else if c = 'f' then
        match rest with
        | 'a' :: 'l' :: 's' :: 'e' :: rest2 => .ok (.bool false, rest2)
        | _ => .error "Unexpected token f in JSON"
      else if c = '"' then
        match parseStringBody [] rest with
        | .error e => .error e
        | .ok (s, rest2) => .ok (.str s, rest2)
      else if c = '{' then
        let r := skipWs rest
        if headIs r '}' then .ok (.obj .nil, r.tail)
        else match parseMembers fuel r with
          | .error e => .error e
          | .ok (fs, rest3) => .ok (.obj fs, rest3)
      else if c = '[' then
        let r := skipWs rest
        if headIs r ']' then .ok (.arr .nil, r.tail)
        else match parseElems fuel r with
          | .error e => .error e
          | .ok (es, rest3) => .ok (.arr es, rest3)
      else if isDigitChar c ∨ c = '-' then parseNumber (c :: rest)
      else .error "Unexpected token in JSON"
termination_by structural fuel => fuel

/-- Parse the members of a nonempty JSON object, up to and including the
closing brace. -/
def parseMembers : Nat → List Char → Except String (JsonFields × List Char)
  | 0, _ => .error "JSON nesting depth limit exceeded"
  | fuel+1, cs =>
    match skipWs cs with
    | '"' :: rest =>
      match parseStringBody [] rest with
      | .error e => .error e
      | .ok (k, rest2) =>
        match skipWs rest2 with
        | ':' :: rest3 =>
          match parseVal fuel rest3 with
          | .error e => .error e
          | .ok (v, rest4) =>
            match skipWs rest4 with
            | ',' :: rest5 =>
              match parseMembers fuel rest5 with
              | .error e => .error e
              | .ok (fs, rest6) => .ok (.cons k v fs, rest6)
            | '}' :: rest5 => .ok (.cons k v .nil, rest5)
            | _ => .error "Expected comma or closing brace in JSON object"
        | _ => .error "Expected colon in JSON object"
    | _ => .error "Expected string key in JSON object"
termination_by structural fuel => fuel

/-- Parse the elements of a nonempty JSON array, up to and including the
closing bracket. -/
def parseElems : Nat → List Char → Except String (JsonList × List Char)
  | 0, _ => .error "JSON nesting depth limit exceeded"
  | fuel+1, cs =>
    match parseVal fuel cs with
    | .error e => .error e
    | .ok (v, rest) =>
      match skipWs rest with
      | ',' :: rest2 =>
        match parseElems fuel rest2 with
        | .error e => .error e
        | .ok (es, rest3) => .ok (.cons v es, rest3)
      | ']' :: rest2 => .ok (.cons v .nil, rest2)
      | _ => .error "Expected comma or closing bracket in JSON array"
termination_by structural fuel => fuel
end

/-- `JSON.parse(s)`: parse one JSON value and require only trailing
whitespace after it. -/
def parseJsonText (s : String) : Except String Json :=
  match parseVal (s.length + 1) s.data with
  | .error e => .error e
  | .ok (j, rest) =>
      match skipWs rest with
      | [] => .ok j
      | _ => .error "Unexpected non-whitespace character after JSON data"

/-! ## Round trip: `JSON.parse ∘ JSON.stringify = id`

The verifier re-parses the pretty-printed document stored in the archive and
re-serializes it compactly for signing, so the claims about verification
reduce to this round trip (proved for any whitespace-only gap, covering both
the compact and the 2-space pretty form). -/
/-- A character list consisting only of JSON whitespace. -/
def wsOnly (l : List Char) : Prop := ∀ c ∈ l, isJsonWs c = true

/-- The numeric value of a digit run, folded left with accumulator. -/
def digitsVal (ds : List Char) (acc : Nat) : Nat :=
  ds.foldl (fun a c => 10 * a + (c.toNat - 48)) acc

/-- The list does not begin with a decimal digit. -/
def notDigitStart : List Char → Prop
  | [] => True
  | c :: _ => isDigitChar c = false

/-- The list may legally follow a serialized integer: it neither continues
the digit run nor begins a fraction or exponent. -/
def numDelim : List Char → Prop
  | [] => True
  | c :: _ => isDigitChar c = false ∧ c ≠ '.' ∧ c ≠ 'e' ∧ c ≠ 'E'

mutual
/-- Fuel needed by `parseVal` to re-parse a serialized value. -/
def fuelV : Json → Nat
  | .null => 1
  | .bool _ => 1
  | .num _ => 1
  | .str _ => 1
  | .arr l => 1 + fuelL l
  | .obj l => 1 + fuelF l
termination_by structural j => j

/-- Fuel needed by `parseElems` for the elements of an array. -/
def fuelL : JsonList → Nat
  | .nil => 0
  | .cons hd tl => 1 + fuelV hd + fuelL tl
termination_by structural l => l

/-- Fuel needed by `parseMembers` for the members of an object. -/
def fuelF : JsonFields → Nat
  | .nil => 0
  | .cons _ v tl => 1 + fuelV v + fuelF tl
termination_by structural l => l
end

/-! ## The Signer/Verifier (`generateSignature` / `verifySignature`)

`generateSignature(data, secretKey)` computes the lowercase-hex SHA-256 of
`JSON.stringify(data) + secretKey`; `verifySignature` recomputes and compares
with JavaScript `===`.  `JVal` is a JavaScript value that is either a JSON
value or `undefined`, as produced by property access on a parsed document. -/
/-- A JavaScript value: a JSON value or `undefined`. -/
abbrev JVal := Option Json

/-- `JSON.stringify` at the top level: `undefined` stringifies to
`undefined` (not a string). -/
def jsonStringifyTop : JVal → Option String :=
  fun d => d.map canonicalSerialize

/-- JavaScript `x + secretKey` string coercion: `undefined` coerces to the
text `"undefined"`. -/
def jsPlusStr (a : Option String) (b : String) : String :=
  (match a with
    | none => "undefined"
    | some s => s) ++ b

/-- The compiled-in shared secret (the default `secretKey` parameter). -/
def defaultSecretKey : String := "INFINITY_MIRROR_V1"

/-- `generateSignature(data, secretKey)`: lowercase hex SHA-256 of
`JSON.stringify(data) + secretKey`. -/
def generateSignature (data : JVal) (secretKey : String) : String :=
  sha256hex (utf8Encode (jsPlusStr (jsonStringifyTop data) secretKey))

/-- JavaScript `expected === signature` where `expected` is a string and
`signature` an arbitrary value. -/
def jsStrictEqStr (expected : String) (v : JVal) : Bool :=
  match v with
  | some (.str s) => expected == s
  | _ => false

/-- `verifySignature(data, signature, secretKey)`: recompute and compare. -/
def verifySignature (data : JVal) (signature : JVal) (secretKey : String) : Bool :=
  jsStrictEqStr (generateSignature data secretKey) signature

/-! ## The Configuration Model (`serializeConfiguration`'s output shape)

`Configuration` is the value object produced by `serializeConfiguration`;
`Configuration.toJson` lists its fields in exactly the insertion order of the
object literal in the source.  Numbers are modelled as integers (see the
header). -/
/-- `config.icon`. -/
structure IconConfig where
  selectedPreset : String
  shapeType : String
  customSvgPath : Option String
  svgRenderMode : String

/-- `config.colors`. -/
structure ColorsConfig where
  wallColor : String
  frameColor : String
  lightColor : String

/-- `config.transform`. -/
structure TransformConfig where
  scale : Int
  rotation : Int
  positionX : Int
  positionY : Int
  edgeThickness : Int

/-- `config.mirror`. -/
structure MirrorConfig where
  spacing : Int
  reflectionDepth : Int

/-- `config.performance`. -/
structure PerformanceConfig where
  autoOrbit : Bool
  enableBloom : Bool

/-- The configuration document produced by `serializeConfiguration`. -/
structure Configuration where
  version : String
  timestamp : String
  icon : IconConfig
  colors : ColorsConfig
  transform : TransformConfig
  mirror : MirrorConfig
  performance : PerformanceConfig

/-- A nullable string as a JSON value (`null` when absent, as
`serializeConfiguration` stores `customSvgPath`). -/
def optStrJson : Option String → Json
  | none => .null
  | some s => .str s

/-- The ordered fields of the configuration object, exactly as the object
literal in `serializeConfiguration` inserts them. -/
def Configuration.toFields (c : Configuration) : JsonFields :=
  .cons "version" (.str c.version)
    (.cons "timestamp" (.str c.timestamp)
      (.cons "icon" (.obj
        (.cons "selectedPreset" (.str c.icon.selectedPreset)
          (.cons "shapeType" (.str c.icon.shapeType)
            (.cons "customSvgPath" (optStrJson c.icon.customSvgPath)
              (.cons "svgRenderMode" (.str c.icon.svgRenderMode) .nil)))))
        (.cons "colors" (.obj
          (.cons "wallColor" (.str c.colors.wallColor)
            (.cons "frameColor" (.str c.colors.frameColor)
              (.cons "lightColor" (.str c.colors.lightColor) .nil))))
          (.cons "transform" (.obj
            (.cons "scale" (.num c.transform.scale)
              (.cons "rotation" (.num c.transform.rotation)
                (.cons "positionX" (.num c.transform.positionX)
                  (.cons "positionY" (.num c.transform.positionY)
                    (.cons "edgeThickness" (.num c.transform.edgeThickness) .nil))))))
            (.cons "mirror" (.obj
              (.cons "spacing" (.num c.mirror.spacing)
                (.cons "reflectionDepth" (.num c.mirror.reflectionDepth) .nil)))
              (.cons "performance" (.obj
                (.cons "autoOrbit" (.bool c.performance.autoOrbit)
                  (.cons "enableBloom" (.bool c.performance.enableBloom) .nil)))
                .nil))))))

/-- The configuration document as a JSON object. -/
def Configuration.toJson (c : Configuration) : Json := .obj c.toFields

/-- Customer info handed to the export; absent fields model missing object
properties. -/
structure CustomerInfo where
  name : Option String
  email : Option String
  notes : Option String

/-- JavaScript `v || dflt` for a possibly-missing string: `undefined` and the
empty string are falsy. -/
def jsOrDefault (v : Option String) (dflt : String) : String :=
  match v with
  | none => dflt
  | some s => if s = "" then dflt else s

/-- The `customer` block merged into the signed payload by
`createExportZip`. -/
def customerJson (info : CustomerInfo) (exportDate : String) : Json :=
  .obj (.cons "name" (.str (jsOrDefault info.name "Anonymous"))
    (.cons "email" (.str (jsOrDefault info.email ""))
      (.cons "notes" (.str (jsOrDefault info.notes ""))
        (.cons "exportDate" (.str exportDate) .nil))))

/-- Append one field at the end of a field list (the JS object spread
`{...config, customer}` appends the new key). -/
def JsonFields.append (fs : JsonFields) (k : String) (v : Json) : JsonFields :=
  match fs with
  | .nil => .cons k v .nil
  | .cons k0 v0 t => .cons k0 v0 (t.append k v)

/-- `configWithMeta`: the signed payload, `{...config, customer: {...}}`. -/
def configWithMeta (c : Configuration) (info : CustomerInfo) (now : String) : Json :=
  .obj (c.toFields.append "customer" (customerJson info now))

/-- The `exportData` object written to `configuration.json`:
`{config, signature, signatureVersion: '1.0'}`. -/
def exportDocument (c : Configuration) (info : CustomerInfo) (now : String) : Json :=
  .obj (.cons "config" (configWithMeta c info now)
    (.cons "signature" (.str (generateSignature (some (configWithMeta c info now)) defaultSecretKey))
      (.cons "signatureVersion" (.str "1.0") .nil)))

/-! ## The Archive Builder (`createExportZip`)

The zip container is abstracted as a name-keyed entry list (JSZip's file
map); `EntryData` distinguishes text entries from binary blobs.  The two
`new Date().toISOString()` calls are modelled by the explicit `now`
parameter. -/
/-- One archive entry: text (configuration, SVG, README) or binary bytes
(the PNG snapshot blob). -/
inductive EntryData where
  | text (s : String) : EntryData
  | bin (bytes : List Nat) : EntryData

/-- The README.txt content, with the template-literal interpolations of the
source. -/
def readmeText (info : CustomerInfo) (hasCustomSvg : Bool) (now : String) : String :=
  "Infinity Mirror Configuration Export\n" ++
  "=====================================\n" ++
  "\n" ++
  "Export Date: " ++ now ++ "\n" ++
  "Customer: " ++ jsOrDefault info.name "Anonymous" ++ "\n" ++
  "Email: " ++ jsOrDefault info.email "N/A" ++ "\n" ++
  "\n" ++
  "Files Included:\n" ++
  "- configuration.json: Complete scene configuration with cryptographic signature\n" ++
  "- preview.png: Visual snapshot of the configured design" ++
  (if hasCustomSvg then "\n- custom-icon.svg: User-uploaded custom SVG icon file" else "") ++
  "\n" ++
  "\n" ++
  "This file contains a cryptographic signature to prevent tampering.\n" ++
  "DO NOT modify the configuration.json file or the signature will be invalid.\n" ++
  "\n" ++
  "For manufacturing, send this ZIP file to the manufacturer.\n"

/-- The truthiness test `config.icon.customSvgPath && config.icon.shapeType
=== 'custom'` guarding the `custom-icon.svg` entry. -/
def hasCustomSvgEntry (icon : IconConfig) : Bool :=
  match icon.customSvgPath with
  | none => false
  | some svg => !(svg == "") && (icon.shapeType == "custom")

/-- `createExportZip(config, snapshotBlob, customerInfo)`: assemble the
archive entries in source order — configuration.json, optional preview.png,
optional custom-icon.svg, README.txt. -/
def createExportZip (config : Configuration) (snapshotBlob : Option (List Nat))
    (customerInfo : CustomerInfo) (now : String) : List (String × EntryData) :=
  [("configuration.json", .text (prettySerialize (exportDocument config customerInfo now)))] ++
  (match snapshotBlob with
    | some b => [("preview.png", .bin b)]
    | none => []) ++
  (if hasCustomSvgEntry config.icon then
    [("custom-icon.svg", .text (config.icon.customSvgPath.getD ""))]
   else []) ++
  [("README.txt", .text (readmeText customerInfo (hasCustomSvgEntry config.icon) now))]

/-! ## The Archive Verifier (`validateImportedConfig`)

`ZipInput.malformed msg` stands for byte sequences on which
`JSZip.loadAsync` rejects (the outer catch turns the error into a result);
`zipOf entries` is a wellformed container with its name-keyed entry map. -/
/-- Input to the verifier. -/
inductive ZipInput where
  | malformed (msg : String) : ZipInput
  | zipOf (entries : List (String × EntryData)) : ZipInput

/-- The verifier's result object, `{valid, config?, error?}`. -/
structure ImportResult where
  valid : Bool
  config : Option Json
  error : Option String

/-- `zip.file(name)`: look an entry up by exact name. -/
def findEntry (entries : List (String × EntryData)) (name : String) : Option EntryData :=
  (entries.find? (fun e => e.1 == name)).map (fun e => e.2)

/-- `configFile.async('text')`: the text of an entry (binary entries decode
bytewise). -/
def entryText : EntryData → String
  | .text s => s
  | .bin bs => String.mk (bs.map Char.ofNat)

/-- First binding of a key in an object's fields (objects produced by the
program have unique keys). -/
def lookupField : JsonFields → String → Option Json
  | .nil, _ => none
  | .cons k v t, key => if k = key then some v else lookupField t key

/-- JavaScript property access `doc.key` on a parsed JSON document: throws on
`null`, yields `undefined` on non-objects and missing keys. -/
def propAccess (j : Json) (key : String) : Except String JVal :=
  match j with
  | .null => .error ("Cannot read properties of null (reading '" ++ key ++ "')")
  | .obj fs => .ok (lookupField fs key)
  | _ => .ok none

/-- `validateImportedConfig(zipBlob)`: open the container, find
`configuration.json`, parse it, verify the signature; every failure path is
caught and becomes a `valid:false` result with an error message. -/
def validateImportedConfig (input : ZipInput) : ImportResult :=
  match input with
  | .malformed msg => ⟨false, none, some msg⟩
  | .zipOf entries =>
    match findEntry entries "configuration.json" with
    | none => ⟨false, none, some "Missing configuration.json"⟩
    | some entry =>
      match parseJsonText (entryText entry) with
      | .error msg => ⟨false, none, some msg⟩
      | .ok exportData =>
        match propAccess exportData "config" with
        | .error msg => ⟨false, none, some msg⟩
        | .ok cfg =>
          match propAccess exportData "signature" with
          | .error msg => ⟨false, none, some msg⟩
          | .ok sig =>
            if verifySignature cfg sig defaultSecretKey then ⟨true, cfg, none⟩
            else ⟨false, none, some "Invalid signature - file may have been tampered with"⟩

/-! ## Snapshot Capture (`captureCanvasSnapshot`)

The environment enumerates the outcome of each step of the source function:
a null canvas element, a throw from `requestAnimationFrame`/`toDataURL`, a
rejected `fetch`, a null blob, or a successful blob.  The double
`requestAnimationFrame` wait is timing, outside the shallow embedding; the
value content is the catch structure, which resolves `null` on every failure
path and never rejects. -/
/-- The possible runtime outcomes inside `captureCanvasSnapshot`. -/
inductive SnapshotEnv where
  | noCanvas : SnapshotEnv
  | rafThrows (msg : String) : SnapshotEnv
  | toDataUrlThrows (msg : String) : SnapshotEnv
  | fetchRejects (msg : String) : SnapshotEnv
  | blobNull : SnapshotEnv
  | blobOk (bytes : List Nat) : SnapshotEnv

/-- `captureCanvasSnapshot(canvasElement)`: the promise always resolves —
with the PNG bytes on success and `null` on every failure path. -/
def captureCanvasSnapshot : SnapshotEnv → Option (List Nat)
  | .noCanvas => none
  | .rafThrows _ => none
  | .toDataUrlThrows _ => none
  | .fetchRejects _ => none
  | .blobNull => none
  | .blobOk bytes => some bytes

/-! ## Submission Client (`sendToManufacturer`)

The network is an oracle from request indices to outcomes together with a
cursor counting requests already issued; one invocation reads exactly one
outcome and advances the cursor by one, which is the embedding of "exactly
one POST, never retried". -/
/-- The outcome of one `fetch` POST. -/
inductive HttpOutcome where
  | networkError (msg : String) : HttpOutcome
  | response (ok : Bool) (status : Nat) (body : Except String Json) : HttpOutcome

/-- The `{success, data?, error?}` result of `sendToManufacturer`. -/
structure SubmitResult where
  success : Bool
  data : Option Json
  error : Option String

/-- Interpret one HTTP outcome exactly as the source's try/catch does:
non-ok status throws `Server responded with ${status}` (caught), a rejected
`response.json()` is caught, and a network error is caught. -/
def interpretResponse : HttpOutcome → SubmitResult
  | .networkError msg => ⟨false, none, some msg⟩
  | .response ok status body =>
      if ok then
        match body with
        | .ok j => ⟨true, some j, none⟩
        | .error msg => ⟨false, none, some msg⟩
      else ⟨false, none, some ("Server responded with " ++ toString status)⟩

/-- `sendToManufacturer(zipBlob, customerInfo, endpoint)`: issue one POST
(read one oracle outcome, advance the cursor once) and interpret the
response. -/
def sendToManufacturer (net : Nat → HttpOutcome) (cursor : Nat) : SubmitResult × Nat :=
  (interpretResponse (net cursor), cursor + 1)

/-- Field-for-field equality of configuration documents: same top-level
fields with equal values, regardless of insertion order. -/
def fieldwiseEqual : Json → Json → Prop :=
  fun a b =>
    match a, b with
    | .obj f1, .obj f2 => f1.toList.Perm f2.toList
    | x, y => x = y

/-- A preset-shape base configuration used as a concrete fixture. -/
def cfgBase : Configuration :=
  ⟨"1.0.0", "2024-01-01T00:00:00.000Z",
   ⟨"hexagon", "hexagon", none, "outline"⟩,
   ⟨"#151515", "#222222", "#00ffff"⟩,
   ⟨1, 0, 0, 0, 1⟩, ⟨20, 7⟩, ⟨false, true⟩⟩

/-- A custom-shape configuration whose custom source is present but empty. -/
def cfgEmptyCustom : Configuration :=
  { cfgBase with icon := ⟨"custom", "custom", some "", "outline"⟩ }

/-- A custom-shape configuration with a nonempty custom source. -/
def cfgCustom : Configuration :=
  { cfgBase with icon := ⟨"custom", "custom", some "<svg/>", "outline"⟩ }

/-- A concrete customer fixture. -/
def info0 : CustomerInfo := ⟨some "John Doe", some "john@example.com", some ""⟩

/-- A concrete export timestamp fixture. -/
def now0 : String := "2024-01-01T00:00:00.000Z"

/-- All eight words of a hash state are reduced mod `2^32`. -/
def Hash8.bounded (st : Hash8) : Prop :=
  st.a < M32 ∧ st.b < M32 ∧ st.c < M32 ∧ st.d < M32 ∧
    st.e < M32 ∧ st.f < M32 ∧ st.g < M32 ∧ st.h < M32

/-- The digest words as a single natural number below `2^256`. -/
def wordsVal : List Nat → Nat
  | [] => 0
  | w :: ws => w + M32 * wordsVal ws

/-- Replace the value of one top-level field (JavaScript single-field
assignment on an object with unique keys). -/
def setFieldIn : JsonFields → String → Json → JsonFields
  | .nil, _, _ => .nil
  | .cons k0 v0 t, k, v =>
      if k0 = k then .cons k0 v (setFieldIn t k v) else .cons k0 v0 (setFieldIn t k v)

/-- A single-field mutation of a configuration document: the value at one
top-level key is replaced. -/
def setField (j : Json) (k : String) (v : Json) : Json :=
  match j with
  | .obj fs => .obj (setFieldIn fs k v)
  | other => other

/-- C3 as stated by the spec: any single-field mutation that changes at
least one byte of the canonical serialization of a signed export payload is
rejected by `verifySignature`. -/
def claimC3Statement : Prop :=
  ∀ (c : Configuration) (info : CustomerInfo) (now secretKey : String) (k : String) (v : Json),
    canonicalSerialize (setField (configWithMeta c info now) k v) ≠
      canonicalSerialize (configWithMeta c info now) →
    verifySignature (some (setField (configWithMeta c info now) k v))
      (some (.str (generateSignature (some (configWithMeta c info now)) secretKey)))
      secretKey = false

/-- A family of customers whose notes field has a given length. -/
def infoFam (n : Nat) : CustomerInfo :=
  ⟨some "John Doe", some "john@example.com", some (String.mk (List.replicate n 'x'))⟩

/-- A family of pairwise-distinct signed export payloads. -/
def docFamily (n : Nat) : Json := configWithMeta cfgBase (infoFam n) now0

/-- The length of the `customer.notes` string of a document. -/
def extractNotesLen (j : Json) : Nat :=
  match j with
  | .obj fs =>
      match lookupField fs "customer" with
      | some (.obj cfs) =>
          match lookupField cfs "notes" with
          | some (.str s) => s.length
          | _ => 0
      | _ => 0
  | _ => 0

example : canonicalSerialize (Json.obj (.cons "a" (.num 1) (.cons "b" (.num 2) .nil))) ≠
    canonicalSerialize (Json.obj (.cons "b" (.num 2) (.cons "a" (.num 1) .nil))) := by decide

set_option maxRecDepth 100000 in
example : sha256hex (utf8Encode "abc") =
    "ba7816bf8f01cfea414140de5dae2223b00361a396177a9cb410ff61f20015ad" := by decide

example : parseJsonText (canonicalSerialize (Json.obj (.cons "a" (.num (-12)) .nil))) =
    .ok (Json.obj (.cons "a" (.num (-12)) .nil)) := by rfl

example : parseJsonText (prettySerialize (Json.obj (.cons "a" (.arr (.cons (.num 1) (.cons .null .nil))) (.cons "b" (.str "x\n\"y") .nil)))) =
    .ok (Json.obj (.cons "a" (.arr (.cons (.num 1) (.cons .null .nil))) (.cons "b" (.str "x\n\"y") .nil))) := by rfl

theorem wsOnly_nil : wsOnly [] := by intro c hc; cases hc

theorem wsOnly_append {a b : List Char} (ha : wsOnly a) (hb : wsOnly b) : wsOnly (a ++ b) := by
  intro c hc
  rcases List.mem_append.mp hc with h | h
  · exact ha c h
  · exact hb c h

theorem wsOnly_two_spaces : wsOnly [' ', ' '] := by unfold wsOnly; decide

theorem skipWs_append_ws {ws : List Char} (h : wsOnly ws) (l : List Char) :
    skipWs (ws ++ l) = skipWs l := by
  induction ws with
  | nil => rfl
  | cons c cs ih =>
      have hc : isJsonWs c = true := h c (List.mem_cons_self c cs)
      have hcs : wsOnly cs := fun d hd => h d (List.mem_cons_of_mem c hd)
      simp [skipWs, hc, ih hcs]

theorem skipWs_cons_not {c : Char} (h : isJsonWs c = false) (l : List Char) :
    skipWs (c :: l) = c :: l := by
  simp [skipWs, h]

/-- Hex digits round-trip through `hexVal`. -/
theorem hexVal_hexDigitChar : ∀ d < 16, hexVal (hexDigitChar d) = some d := by decide

theorem psb_quote (acc cs : List Char) :
    parseStringBody acc ('"' :: cs) = .ok (String.mk acc.reverse, cs) := by
  rw [parseStringBody.eq_def]; simp

theorem psb_plain {c : Char} (h1 : c ≠ '"') (h2 : c ≠ '\\') (acc cs : List Char) :
    parseStringBody acc (c :: cs) = parseStringBody (c :: acc) cs := by
  rw [parseStringBody.eq_def]; simp [h1, h2]

theorem psb_esc_quote (acc cs : List Char) :
    parseStringBody acc ('\\' :: '"' :: cs) = parseStringBody ('"' :: acc) cs := by
  rw [parseStringBody.eq_def]; simp

theorem psb_esc_backslash (acc cs : List Char) :
    parseStringBody acc ('\\' :: '\\' :: cs) = parseStringBody ('\\' :: acc) cs := by
  rw [parseStringBody.eq_def]; simp

theorem psb_esc_b (acc cs : List Char) :
    parseStringBody acc ('\\' :: 'b' :: cs) = parseStringBody ('\x08' :: acc) cs := by
  rw [parseStringBody.eq_def]; simp

theorem psb_esc_f (acc cs : List Char) :
    parseStringBody acc ('\\' :: 'f' :: cs) = parseStringBody ('\x0c' :: acc) cs := by
  rw [parseStringBody.eq_def]; simp

theorem psb_esc_n (acc cs : List Char) :
    parseStringBody acc ('\\' :: 'n' :: cs) = parseStringBody ('\n' :: acc) cs := by
  rw [parseStringBody.eq_def]; simp

theorem psb_esc_r (acc cs : List Char) :
    parseStringBody acc ('\\' :: 'r' :: cs) = parseStringBody ('\r' :: acc) cs := by
  rw [parseStringBody.eq_def]; simp

theorem psb_esc_t (acc cs : List Char) :
    parseStringBody acc ('\\' :: 't' :: cs) = parseStringBody ('\t' :: acc) cs := by
  rw [parseStringBody.eq_def]; simp

theorem psb_esc_u {h1 h2 h3 h4 : Char} {d1 d2 d3 d4 : Nat}
    (e1 : hexVal h1 = some d1) (e2 : hexVal h2 = some d2)
    (e3 : hexVal h3 = some d3) (e4 : hexVal h4 = some d4) (acc cs : List Char) :
    parseStringBody acc ('\\' :: 'u' :: h1 :: h2 :: h3 :: h4 :: cs) =
      parseStringBody (Char.ofNat (4096 * d1 + 256 * d2 + 16 * d3 + d4) :: acc) cs := by
  simp [parseStringBody, e1, e2, e3, e4]

/-- `parseStringBody` undoes `escapeChars`: the string-literal round trip at
the heart of key and string parsing. -/
theorem parseStringBody_escape (s : List Char) : ∀ (acc rest : List Char),
    parseStringBody acc (escapeChars s ++ '"' :: rest) = .ok (String.mk (acc.reverse ++ s), rest) := by
  induction s with
  | nil => intro acc rest; simp [escapeChars, psb_quote]
  | cons c cs ih =>
      intro acc rest
      have hstep : escapeChars (c :: cs) = escapeChar c ++ escapeChars cs := rfl
      by_cases e1 : c = '"'
      · subst e1
        rw [hstep, show escapeChar '"' = ['\\', '"'] from rfl]
        simp only [List.cons_append, List.nil_append, psb_esc_quote, ih]
        simp
      · by_cases e2 : c = '\\'
        · subst e2
          rw [hstep, show escapeChar '\\' = ['\\', '\\'] from rfl]
          simp only [List.cons_append, List.nil_append, psb_esc_backslash, ih]
          simp
        · by_cases e3 : c = '\x08'
          · subst e3
            rw [hstep, show escapeChar '\x08' = ['\\', 'b'] from rfl]
            simp only [List.cons_append, List.nil_append, psb_esc_b, ih]
            simp
          · by_cases e4 : c = '\x0c'
            · subst e4
              rw [hstep, show escapeChar '\x0c' = ['\\', 'f'] from rfl]
              simp only [List.cons_append, List.nil_append, psb_esc_f, ih]
              simp
            · by_cases e5 : c = '\n'
              · subst e5
                rw [hstep, show escapeChar '\n' = ['\\', 'n'] from rfl]
                simp only [List.cons_append, List.nil_append, psb_esc_n, ih]
                simp
              · by_cases e6 : c = '\r'
                · subst e6
                  rw [hstep, show escapeChar '\r' = ['\\', 'r'] from rfl]
                  simp only [List.cons_append, List.nil_append, psb_esc_r, ih]
                  simp
                · by_cases e7 : c = '\t'
                  · subst e7
                    rw [hstep, show escapeChar '\t' = ['\\', 't'] from rfl]
                    simp only [List.cons_append, List.nil_append, psb_esc_t, ih]
                    simp
                  · by_cases e8 : c.toNat < 32
                    · rw [hstep,
                        show escapeChar c = ['\\', 'u', '0', '0',
                          hexDigitChar (c.toNat / 16), hexDigitChar (c.toNat % 16)] from by
                          simp [escapeChar, e1, e2, e3, e4, e5, e6, e7, e8]]
                      have hv0 : hexVal '0' = some 0 := rfl
                      have hv3 : hexVal (hexDigitChar (c.toNat / 16)) = some (c.toNat / 16) :=
                        hexVal_hexDigitChar _ (by omega)
                      have hv4 : hexVal (hexDigitChar (c.toNat % 16)) = some (c.toNat % 16) :=
                        hexVal_hexDigitChar _ (by omega)
                      simp only [List.cons_append, List.nil_append, psb_esc_u hv0 hv0 hv3 hv4]
                      have harg : 4096 * 0 + 256 * 0 + 16 * (c.toNat / 16) + c.toNat % 16 = c.toNat := by
                        omega
                      rw [harg, Char.ofNat_toNat, ih]
                      simp
                    · rw [hstep, show escapeChar c = [c] from by
                        simp [escapeChar, e1, e2, e3, e4, e5, e6, e7, e8]]
                      simp only [List.cons_append, List.nil_append, psb_plain e1 e2, ih]
                      simp

theorem numDelim.toNotDigitStart {l : List Char} (h : numDelim l) : notDigitStart l := by
  cases l with
  | nil => trivial
  | cons c t => exact h.1

theorem parseDigits_append {ds : List Char} (hds : ∀ c ∈ ds, isDigitChar c = true) :
    ∀ (rest : List Char) (acc : Nat), notDigitStart rest →
    parseDigits (ds ++ rest) acc = (digitsVal ds acc, rest) := by
  induction ds with
  | nil =>
      intro rest acc hrest
      cases rest with
      | nil => rfl
      | cons c t =>
          have hc : isDigitChar c = false := hrest
          rw [List.nil_append, parseDigits.eq_def]
          simp [hc, digitsVal]
  | cons d ds ih =>
      intro rest acc hrest
      have hd : isDigitChar d = true := hds d (List.mem_cons_self d ds)
      have hds' : ∀ c ∈ ds, isDigitChar c = true := fun c hc => hds c (List.mem_cons_of_mem d hc)
      rw [List.cons_append, parseDigits.eq_def]
      simp only [hd, if_true]
      rw [ih hds' rest _ hrest]
      rfl

theorem natDigitChar_isDigit : ∀ n < 10, isDigitChar (natDigitChar n) = true := by decide

theorem natDigitChar_toNat : ∀ n < 10, (natDigitChar n).toNat = 48 + n := by decide

theorem natToCharsAux_spec : ∀ (fuel n : Nat), n < fuel →
    natToCharsAux fuel n ≠ [] ∧ (∀ c ∈ natToCharsAux fuel n, isDigitChar c = true) ∧
    ∀ acc, digitsVal (natToCharsAux fuel n) acc = acc * 10 ^ (natToCharsAux fuel n).length + n := by
  intro fuel
  induction fuel with
  | zero => intro n hn; omega
  | succ f ih =>
      intro n hn
      by_cases h10 : n < 10
      · rw [natToCharsAux, if_pos h10]
        refine ⟨by simp, ?_, ?_⟩
        · intro c hc
          rcases List.mem_singleton.mp hc with rfl
          exact natDigitChar_isDigit n h10
        · intro acc
          simp [digitsVal, natDigitChar_toNat n h10]
          ring
      · have hn0 : 0 < n := by omega
        have hdiv : n / 10 < n := Nat.div_lt_self hn0 (by norm_num)
        have hdivf : n / 10 < f := by omega
        obtain ⟨hne, hdig, hval⟩ := ih (n / 10) hdivf
        rw [natToCharsAux, if_neg h10]
        refine ⟨by simp [hne], ?_, ?_⟩
        · intro c hc
          rcases List.mem_append.mp hc with h | h
          · exact hdig c h
          · rcases List.mem_singleton.mp h with rfl
            exact natDigitChar_isDigit _ (Nat.mod_lt n (by norm_num))
        · intro acc
          have hfold : digitsVal (natToCharsAux f (n / 10) ++ [natDigitChar (n % 10)]) acc =
              10 * digitsVal (natToCharsAux f (n / 10)) acc + ((natDigitChar (n % 10)).toNat - 48) := by
            simp [digitsVal, List.foldl_append]
          rw [hfold, hval acc, natDigitChar_toNat _ (Nat.mod_lt n (by norm_num))]
          have hlen : (natToCharsAux f (n / 10) ++ [natDigitChar (n % 10)]).length =
              (natToCharsAux f (n / 10)).length + 1 := by simp
          rw [hlen, pow_succ, ← mul_assoc]
          have hdm : 10 * (n / 10) + n % 10 = n := Nat.div_add_mod n 10
          generalize acc * 10 ^ (natToCharsAux f (n / 10)).length = m
          omega

theorem natToChars_spec (n : Nat) :
    natToChars n ≠ [] ∧ (∀ c ∈ natToChars n, isDigitChar c = true) ∧
    ∀ acc, digitsVal (natToChars n) acc = acc * 10 ^ (natToChars n).length + n :=
  natToCharsAux_spec (n + 1) n (Nat.lt_succ_self n)

theorem digit_props {c : Char} (h : isDigitChar c = true) :
    c ≠ '-' ∧ c ≠ 'n' ∧ c ≠ 't' ∧ c ≠ 'f' ∧ c ≠ '"' ∧ c ≠ '{' ∧ c ≠ '[' ∧
      isJsonWs c = false ∧ c ≠ ']' ∧ c ≠ '}' := by
  refine ⟨?_, ?_, ?_, ?_, ?_, ?_, ?_, ?_, ?_, ?_⟩ <;>
    first
      | (intro hc; subst hc; exact absurd h (by decide))
      | (apply decide_eq_false
         intro hor
         rcases hor with hc | hc | hc | hc <;> (subst hc; exact absurd h (by decide)))

theorem parseNumber_natToChars (n : Nat) (rest : List Char) (hrest : numDelim rest) :
    parseNumber (natToChars n ++ rest) = .ok (.num (n : Int), rest) := by
  obtain ⟨hne, hdig, hval⟩ := natToChars_spec n
  obtain ⟨hd, tl, heq⟩ := List.exists_cons_of_ne_nil hne
  have hhd : isDigitChar hd = true := hdig hd (by rw [heq]; exact List.mem_cons_self _ _)
  have htl : ∀ c ∈ tl, isDigitChar c = true := fun c hc => hdig c (by rw [heq]; exact List.mem_cons_of_mem _ hc)
  rw [heq, List.cons_append, parseNumber.eq_def]
  simp only [if_neg (digit_props hhd).1, hhd, if_true]
  rw [parseDigits_append htl rest _ hrest.toNotDigitStart]
  have hv : digitsVal tl (hd.toNat - 48) = n := by
    have h0 := hval 0
    rw [heq] at h0
    simpa [digitsVal] using h0
  rw [hv]
  cases rest with
  | nil => rfl
  | cons c t =>
      rw [numGuard.eq_def]
      simp [hrest.2.1, hrest.2.2.1, hrest.2.2.2]

theorem parseNumber_intToChars (i : Int) (rest : List Char) (hrest : numDelim rest) :
    parseNumber (intToChars i ++ rest) = .ok (.num i, rest) := by
  cases i with
  | ofNat n => exact parseNumber_natToChars n rest hrest
  | negSucc n =>
      rw [intToChars, List.cons_append, parseNumber.eq_def]
      simp only [if_pos rfl]
      obtain ⟨hne, hdig, hval⟩ := natToChars_spec (n + 1)
      obtain ⟨hd, tl, heq⟩ := List.exists_cons_of_ne_nil hne
      have hhd : isDigitChar hd = true := hdig hd (by rw [heq]; exact List.mem_cons_self _ _)
      have htl : ∀ c ∈ tl, isDigitChar c = true := fun c hc => hdig c (by rw [heq]; exact List.mem_cons_of_mem _ hc)
      rw [heq, List.cons_append]
      simp only [hhd, if_true]
      rw [parseDigits_append htl rest _ hrest.toNotDigitStart]
      have hv : digitsVal tl (hd.toNat - 48) = n + 1 := by
        have h0 := hval 0
        rw [heq] at h0
        simpa [digitsVal] using h0
      rw [hv]
      have hcast : -((n + 1 : Nat) : Int) = Int.negSucc n := by
        rw [Int.negSucc_eq]
        push_cast
        ring
      cases rest with
      | nil =>
          simp only [numGuard, hcast]
      | cons c t =>
          rw [numGuard.eq_def]
          simp only [hcast]
          simp [hrest.2.1, hrest.2.2.1, hrest.2.2.2]

theorem intToChars_head (i : Int) :
    ∃ c t, intToChars i = c :: t ∧ (isDigitChar c = true ∨ c = '-') := by
  cases i with
  | ofNat n =>
      obtain ⟨hne, hdig, _⟩ := natToChars_spec n
      obtain ⟨hd, tl, heq⟩ := List.exists_cons_of_ne_nil hne
      exact ⟨hd, tl, heq, Or.inl (hdig hd (by rw [heq]; exact List.mem_cons_self _ _))⟩
  | negSucc n => exact ⟨'-', natToChars (n + 1), rfl, Or.inr rfl⟩

theorem numHead_branch {c : Char} (h : isDigitChar c = true ∨ c = '-') :
    c ≠ 'n' ∧ c ≠ 't' ∧ c ≠ 'f' ∧ c ≠ '"' ∧ c ≠ '{' ∧ c ≠ '[' ∧
      isJsonWs c = false ∧ c ≠ ']' ∧ c ≠ '}' := by
  rcases h with h | h
  · obtain ⟨_, h2, h3, h4, h5, h6, h7, h8, h9, h10⟩ := digit_props h
    exact ⟨h2, h3, h4, h5, h6, h7, h8, h9, h10⟩
  · subst h; exact ⟨by decide, by decide, by decide, by decide, by decide, by decide,
      by decide, by decide, by decide⟩

/-- Every serialized JSON value starts with a non-whitespace character that is
neither a closing bracket nor a closing brace. -/
theorem serVal_head (gap indent : List Char) (j : Json) :
    ∃ c t, serVal gap indent j = c :: t ∧ isJsonWs c = false ∧ c ≠ ']' ∧ c ≠ '}' := by
  cases j with
  | null => refine ⟨'n', ['u', 'l', 'l'], by simp [serVal], by decide, by decide, by decide⟩
  | bool b =>
      cases b with
      | true => refine ⟨'t', ['r', 'u', 'e'], by simp [serVal], by decide, by decide, by decide⟩
      | false => refine ⟨'f', ['a', 'l', 's', 'e'], by simp [serVal], by decide, by decide, by decide⟩
  | num n =>
      obtain ⟨c, t, heq, hc⟩ := intToChars_head n
      obtain ⟨_, _, _, _, _, _, hws, hbr, hbc⟩ := numHead_branch hc
      exact ⟨c, t, by simp [serVal, heq], hws, hbr, hbc⟩
  | str s =>
      refine ⟨'"', escapeChars s.data ++ ['"'], by simp [serVal, quoteChars], by decide, by decide, by decide⟩
  | arr l =>
      cases l with
      | nil => refine ⟨'[', [']'], by simp [serVal], by decide, by decide, by decide⟩
      | cons h t =>
          by_cases hg : gap = []
          · refine ⟨'[', serElems gap indent true (.cons h t) ++ [']'],
              by simp [serVal, hg], by decide, by decide, by decide⟩
          · refine ⟨'[', '\n' :: ((indent ++ gap) ++ serElems gap (indent ++ gap) true (.cons h t) ++ '\n' :: indent ++ [']']),
              by simp [serVal, hg], by decide, by decide, by decide⟩
  | obj l =>
      cases l with
      | nil => refine ⟨'{', ['}'], by simp [serVal], by decide, by decide, by decide⟩
      | cons k v t =>
          by_cases hg : gap = []
          · refine ⟨'{', serFields gap indent true (.cons k v t) ++ ['}'],
              by simp [serVal, hg], by decide, by decide, by decide⟩
          · refine ⟨'{', '\n' :: ((indent ++ gap) ++ serFields gap (indent ++ gap) true (.cons k v t) ++ '\n' :: indent ++ ['}']),
              by simp [serVal, hg], by decide, by decide, by decide⟩

theorem parseVal_ws_append {ws : List Char} (hws : wsOnly ws) (fuel : Nat) (l : List Char) :
    parseVal fuel (ws ++ l) = parseVal fuel l := by
  cases fuel with
  | zero => simp [parseVal]
  | succ f =>
      simp only [parseVal]
      rw [skipWs_append_ws hws]

theorem parseMembers_ws_append {ws : List Char} (hws : wsOnly ws) (fuel : Nat) (l : List Char) :
    parseMembers fuel (ws ++ l) = parseMembers fuel l := by
  cases fuel with
  | zero => simp [parseMembers]
  | succ f =>
      simp only [parseMembers]
      rw [skipWs_append_ws hws]

theorem parseElems_ws_append {ws : List Char} (hws : wsOnly ws) (fuel : Nat) (l : List Char) :
    parseElems fuel (ws ++ l) = parseElems fuel l := by
  cases fuel with
  | zero => simp [parseElems]
  | succ f =>
      simp only [parseElems]
      rw [parseVal_ws_append hws]

theorem wsChar_numDelim {c : Char} (h : isJsonWs c = true) :
    isDigitChar c = false ∧ c ≠ '.' ∧ c ≠ 'e' ∧ c ≠ 'E' := by
  have h' : c = ' ' ∨ c = '\t' ∨ c = '\n' ∨ c = '\r' := by simpa [isJsonWs] using h
  rcases h' with rfl | rfl | rfl | rfl <;> exact ⟨by decide, by decide, by decide, by decide⟩

theorem numDelim_cons_of {c : Char} (h : isDigitChar c = false ∧ c ≠ '.' ∧ c ≠ 'e' ∧ c ≠ 'E')
    (l : List Char) : numDelim (c :: l) := h

theorem numDelim_ws_append {ws l : List Char} (hws : wsOnly ws) (hl : numDelim l) :
    numDelim (ws ++ l) := by
  cases ws with
  | nil => simpa using hl
  | cons c t => exact numDelim_cons_of (wsChar_numDelim (hws c (List.mem_cons_self c t))) _

theorem serElems_false_eq (gap indent : List Char) (h : Json) (t : JsonList) :
    serElems gap indent false (.cons h t) = serSep gap indent ++ serElems gap indent true (.cons h t) := by
  simp [serElems]

theorem serFields_false_eq (gap indent : List Char) (k : String) (v : Json) (t : JsonFields) :
    serFields gap indent false (.cons k v t) = serSep gap indent ++ serFields gap indent true (.cons k v t) := by
  simp [serFields]

theorem serSep_shape (gap indent : List Char) (hind : wsOnly indent) :
    ∃ st, serSep gap indent = ',' :: st ∧ wsOnly st := by
  by_cases hg : gap = []
  · exact ⟨[], by simp [serSep, hg], wsOnly_nil⟩
  · refine ⟨'\n' :: indent, by simp [serSep, hg], ?_⟩
    intro c hc
    rcases List.mem_cons.mp hc with rfl | hc
    · rfl
    · exact hind c hc

theorem colon_shape (gap : List Char) :
    ∃ pre, (if gap = [] then [':'] else [':', ' ']) = ':' :: pre ∧ wsOnly pre := by
  by_cases hg : gap = []
  · exact ⟨[], by simp [hg], wsOnly_nil⟩
  · refine ⟨[' '], by simp [hg], ?_⟩
    intro c hc
    rcases List.mem_singleton.mp hc with rfl
    rfl

mutual
/-- Parsing undoes serialization for one value: with enough fuel and a
suitable delimiter after it, a serialized value parses back to itself. -/
theorem roundV (j : Json) (gap indent : List Char) (fuel : Nat) (rest : List Char)
    (hgap : wsOnly gap) (hind : wsOnly indent) (hfuel : fuelV j ≤ fuel) (hrest : numDelim rest) :
    parseVal fuel (serVal gap indent j ++ rest) = .ok (j, rest) := by
  obtain ⟨f, rfl⟩ : ∃ f, fuel = f + 1 := by
    cases fuel with
    | zero => exfalso; cases j <;> simp [fuelV] at hfuel
    | succ f => exact ⟨f, rfl⟩
  cases j with
  | null =>
      simp only [serVal, List.cons_append, List.nil_append, parseVal]
      rw [skipWs_cons_not (by decide)]
      simp
  | bool b =>
      cases b with
      | true =>
          simp only [serVal, List.cons_append, List.nil_append, parseVal]
          rw [skipWs_cons_not (by decide)]
          simp
      | false =>
          simp only [serVal, List.cons_append, List.nil_append, parseVal]
          rw [skipWs_cons_not (by decide)]
          simp
  | num n =>
      obtain ⟨c, t, heq, hc⟩ := intToChars_head n
      obtain ⟨h1, h2, h3, h4, h5, h6, hws, _, _⟩ := numHead_branch hc
      have hser : serVal gap indent (.num n) = intToChars n := by simp [serVal]
      rw [hser, heq, List.cons_append]
      simp only [parseVal]
      rw [skipWs_cons_not hws]
      simp only [if_neg h1, if_neg h2, if_neg h3, if_neg h4, if_neg h5, if_neg h6]
      rw [if_pos hc]
      rw [← List.cons_append, ← heq]
      exact parseNumber_intToChars n rest hrest
  | str s =>
      have hquote : serVal gap indent (.str s) ++ rest = '"' :: (escapeChars s.data ++ '"' :: rest) := by
        simp [serVal, quoteChars]
      rw [hquote]
      simp only [parseVal]
      rw [skipWs_cons_not (by decide)]
      simp only [if_neg (by decide : ¬('"' : Char) = 'n'), if_neg (by decide : ¬('"' : Char) = 't'),
        if_neg (by decide : ¬('"' : Char) = 'f'), if_pos rfl]
      rw [parseStringBody_escape]
      simp
  | arr l =>
      cases l with
      | nil =>
          have h2 : serVal gap indent (.arr .nil) ++ rest = '[' :: ']' :: rest := by simp [serVal]
          rw [h2]
          simp only [parseVal]
          rw [skipWs_cons_not (by decide)]
          simp only [if_neg (by decide : ¬('[' : Char) = 'n'), if_neg (by decide : ¬('[' : Char) = 't'),
            if_neg (by decide : ¬('[' : Char) = 'f'), if_neg (by decide : ¬('[' : Char) = '"'),
            if_neg (by decide : ¬('[' : Char) = '{'), if_pos rfl]
          rw [skipWs_cons_not (by decide)]
          simp [headIs]
      | cons h t =>
          have hfl : fuelL (.cons h t) ≤ f := by simp [fuelV] at hfuel; omega
          have hE : serElems gap indent true (.cons h t) =
              serVal gap indent h ++ serElems gap indent false t := by simp [serElems]
          by_cases hg : gap = []
          · subst hg
            obtain ⟨c0, t0, heq0, hw0, hbr0, _⟩ := serVal_head [] indent h
            have hser : serVal [] indent (.arr (.cons h t)) ++ rest =
                '[' :: (serElems [] indent true (.cons h t) ++ (']' :: rest)) := by
              simp [serVal]
            rw [hser]
            simp only [parseVal]
            rw [skipWs_cons_not (by decide)]
            simp only [if_neg (by decide : ¬('[' : Char) = 'n'), if_neg (by decide : ¬('[' : Char) = 't'),
              if_neg (by decide : ¬('[' : Char) = 'f'), if_neg (by decide : ¬('[' : Char) = '"'),
              if_neg (by decide : ¬('[' : Char) = '{'), if_pos rfl]
            have hskip : skipWs (serElems [] indent true (.cons h t) ++ (']' :: rest)) =
                serElems [] indent true (.cons h t) ++ (']' :: rest) := by
              conv_lhs => rw [hE, heq0]
              conv_rhs => rw [hE, heq0]
              simp only [List.cons_append, List.append_assoc]
              exact skipWs_cons_not hw0 _
            have hhead : headIs (serElems [] indent true (.cons h t) ++ (']' :: rest)) ']' = false := by
              rw [hE, heq0]
              simp only [List.cons_append, List.append_assoc]
              simp [headIs, hbr0]
            rw [hskip, hhead]
            simp only [Bool.false_eq_true, if_false]
            have hr := roundL (.cons h t) [] indent f [] rest (by simp) wsOnly_nil hind wsOnly_nil hfl
            simp only [List.nil_append] at hr
            rw [hr]
            simp
          · obtain ⟨c1, t1, heq1, hw1, hbr1, _⟩ := serVal_head gap (indent ++ gap) h
            have hE1 : serElems gap (indent ++ gap) true (.cons h t) =
                serVal gap (indent ++ gap) h ++ serElems gap (indent ++ gap) false t := by simp [serElems]
            have hwsnl : wsOnly ('\n' :: (indent ++ gap)) := by
              intro c hc
              rcases List.mem_cons.mp hc with rfl | hc
              · rfl
              · exact wsOnly_append hind hgap c hc
            have hwsnl2 : wsOnly ('\n' :: indent) := by
              intro c hc
              rcases List.mem_cons.mp hc with rfl | hc
              · rfl
              · exact hind c hc
            have hser : serVal gap indent (.arr (.cons h t)) ++ rest =
                '[' :: (('\n' :: (indent ++ gap)) ++ (serElems gap (indent ++ gap) true (.cons h t) ++
                  (('\n' :: indent) ++ (']' :: rest)))) := by
              simp [serVal, hg, List.cons_append, List.append_assoc]
            rw [hser]
            simp only [parseVal]
            rw [skipWs_cons_not (by decide)]
            simp only [if_neg (by decide : ¬('[' : Char) = 'n'), if_neg (by decide : ¬('[' : Char) = 't'),
              if_neg (by decide : ¬('[' : Char) = 'f'), if_neg (by decide : ¬('[' : Char) = '"'),
              if_neg (by decide : ¬('[' : Char) = '{'), if_pos rfl]
            rw [skipWs_append_ws hwsnl]
            have hskip : skipWs (serElems gap (indent ++ gap) true (.cons h t) ++
                (('\n' :: indent) ++ (']' :: rest))) =
                serElems gap (indent ++ gap) true (.cons h t) ++ (('\n' :: indent) ++ (']' :: rest)) := by
              conv_lhs => rw [hE1, heq1]
              conv_rhs => rw [hE1, heq1]
              simp only [List.cons_append, List.append_assoc]
              exact skipWs_cons_not hw1 _
            have hhead : headIs (serElems gap (indent ++ gap) true (.cons h t) ++
                (('\n' :: indent) ++ (']' :: rest))) ']' = false := by
              rw [hE1, heq1]
              simp only [List.cons_append, List.append_assoc]
              simp [headIs, hbr1]
            rw [hskip, hhead]
            simp only [Bool.false_eq_true, if_false]
            rw [roundL (.cons h t) gap (indent ++ gap) f ('\n' :: indent) rest (by simp) hgap
              (wsOnly_append hind hgap) hwsnl2 hfl]
            simp
  | obj l =>
      cases l with
      | nil =>
          have h2 : serVal gap indent (.obj .nil) ++ rest = '{' :: '}' :: rest := by simp [serVal]
          rw [h2]
          simp only [parseVal]
          rw [skipWs_cons_not (by decide)]
          simp only [if_neg (by decide : ¬('{' : Char) = 'n'), if_neg (by decide : ¬('{' : Char) = 't'),
            if_neg (by decide : ¬('{' : Char) = 'f'), if_neg (by decide : ¬('{' : Char) = '"'),
            if_pos rfl]
          rw [skipWs_cons_not (by decide)]
          simp [headIs]
      | cons k v t =>
          have hfl : fuelF (.cons k v t) ≤ f := by simp [fuelV] at hfuel; omega
          by_cases hg : gap = []
          · subst hg
            have hF : serFields [] indent true (.cons k v t) =
                quoteChars k ++ ((if ([] : List Char) = [] then [':'] else [':', ' ']) ++
                  (serVal [] indent v ++ serFields [] indent false t)) := by
              simp [serFields, List.append_assoc]
            have hser : serVal [] indent (.obj (.cons k v t)) ++ rest =
                '{' :: (serFields [] indent true (.cons k v t) ++ ('}' :: rest)) := by
              simp [serVal]
            rw [hser]
            simp only [parseVal]
            rw [skipWs_cons_not (by decide)]
            simp only [if_neg (by decide : ¬('{' : Char) = 'n'), if_neg (by decide : ¬('{' : Char) = 't'),
              if_neg (by decide : ¬('{' : Char) = 'f'), if_neg (by decide : ¬('{' : Char) = '"'),
              if_pos rfl]
            have hskip : skipWs (serFields [] indent true (.cons k v t) ++ ('}' :: rest)) =
                serFields [] indent true (.cons k v t) ++ ('}' :: rest) := by
              conv_lhs => rw [hF]
              conv_rhs => rw [hF]
              simp only [quoteChars, List.cons_append, List.append_assoc]
              exact skipWs_cons_not (by decide) _
            have hhead : headIs (serFields [] indent true (.cons k v t) ++ ('}' :: rest)) '}' = false := by
              rw [hF]
              simp only [quoteChars, List.cons_append, List.append_assoc]
              simp [headIs]
            rw [hskip, hhead]
            simp only [Bool.false_eq_true, if_false]
            have hr := roundF (.cons k v t) [] indent f [] rest (by simp) wsOnly_nil hind wsOnly_nil hfl
            simp only [List.nil_append] at hr
            rw [hr]
            simp
          · have hwsnl : wsOnly ('\n' :: (indent ++ gap)) := by
              intro c hc
              rcases List.mem_cons.mp hc with rfl | hc
              · rfl
              · exact wsOnly_append hind hgap c hc
            have hwsnl2 : wsOnly ('\n' :: indent) := by
              intro c hc
              rcases List.mem_cons.mp hc with rfl | hc
              · rfl
              · exact hind c hc
            have hF : serFields gap (indent ++ gap) true (.cons k v t) =
                quoteChars k ++ ((if gap = [] then [':'] else [':', ' ']) ++
                  (serVal gap (indent ++ gap) v ++ serFields gap (indent ++ gap) false t)) := by
              simp [serFields, List.append_assoc]
            have hser : serVal gap indent (.obj (.cons k v t)) ++ rest =
                '{' :: (('\n' :: (indent ++ gap)) ++ (serFields gap (indent ++ gap) true (.cons k v t) ++
                  (('\n' :: indent) ++ ('}' :: rest)))) := by
              simp [serVal, hg, List.cons_append, List.append_assoc]
            rw [hser]
            simp only [parseVal]
            rw [skipWs_cons_not (by decide)]
            simp only [if_neg (by decide : ¬('{' : Char) = 'n'), if_neg (by decide : ¬('{' : Char) = 't'),
              if_neg (by decide : ¬('{' : Char) = 'f'), if_neg (by decide : ¬('{' : Char) = '"'),
              if_pos rfl]
            rw [skipWs_append_ws hwsnl]
            have hskip : skipWs (serFields gap (indent ++ gap) true (.cons k v t) ++
                (('\n' :: indent) ++ ('}' :: rest))) =
                serFields gap (indent ++ gap) true (.cons k v t) ++ (('\n' :: indent) ++ ('}' :: rest)) := by
              conv_lhs => rw [hF]
              conv_rhs => rw [hF]
              simp only [quoteChars, List.cons_append, List.append_assoc]
              exact skipWs_cons_not (by decide) _
            have hhead : headIs (serFields gap (indent ++ gap) true (.cons k v t) ++
                (('\n' :: indent) ++ ('}' :: rest))) '}' = false := by
              rw [hF]
              simp only [quoteChars, List.cons_append, List.append_assoc]
              simp [headIs]
            rw [hskip, hhead]
            simp only [Bool.false_eq_true, if_false]
            rw [roundF (.cons k v t) gap (indent ++ gap) f ('\n' :: indent) rest (by simp) hgap
              (wsOnly_append hind hgap) hwsnl2 hfl]
            simp
termination_by sizeOf j

/-- Parsing undoes serialization for a nonempty run of array elements
followed by optional whitespace and the closing bracket. -/
theorem roundL (l : JsonList) (gap indent : List Char) (fuel : Nat) (ws2 rest : List Char)
    (hne : l ≠ .nil) (hgap : wsOnly gap) (hind : wsOnly indent) (hws2 : wsOnly ws2)
    (hfuel : fuelL l ≤ fuel) :
    parseElems fuel (serElems gap indent true l ++ (ws2 ++ (']' :: rest))) = .ok (l, rest) := by
  cases l with
  | nil => exact absurd rfl hne
  | cons h t =>
      obtain ⟨f, rfl⟩ : ∃ f, fuel = f + 1 := by
        cases fuel with
        | zero => exfalso; simp [fuelL] at hfuel
        | succ f => exact ⟨f, rfl⟩
      have hfv : fuelV h ≤ f := by simp [fuelL] at hfuel; omega
      have hft : fuelL t ≤ f := by simp [fuelL] at hfuel; omega
      simp only [parseElems]
      have hE : serElems gap indent true (.cons h t) =
          serVal gap indent h ++ serElems gap indent false t := by simp [serElems]
      cases t with
      | nil =>
          have hnil : serElems gap indent false .nil = [] := by simp [serElems]
          rw [hE, hnil, List.append_nil]
          rw [roundV h gap indent f _ hgap hind hfv
            (numDelim_ws_append hws2 (numDelim_cons_of (by decide) _))]
          simp only []
          rw [skipWs_append_ws hws2, skipWs_cons_not (by decide)]
          simp
      | cons h2 t2 =>
          rw [hE, serElems_false_eq]
          obtain ⟨st, hst, hstws⟩ := serSep_shape gap indent hind
          rw [hst]
          simp only [List.append_assoc, List.cons_append]
          rw [roundV h gap indent f _ hgap hind hfv (numDelim_cons_of (by decide) _)]
          simp only []
          rw [skipWs_cons_not (by decide)]
          simp only []
          rw [parseElems_ws_append hstws]
          rw [roundL (.cons h2 t2) gap indent f ws2 rest (by simp) hgap hind hws2 hft]
termination_by sizeOf l

/-- Parsing undoes serialization for a nonempty run of object members
followed by optional whitespace and the closing brace. -/
theorem roundF (l : JsonFields) (gap indent : List Char) (fuel : Nat) (ws2 rest : List Char)
    (hne : l ≠ .nil) (hgap : wsOnly gap) (hind : wsOnly indent) (hws2 : wsOnly ws2)
    (hfuel : fuelF l ≤ fuel) :
    parseMembers fuel (serFields gap indent true l ++ (ws2 ++ ('}' :: rest))) = .ok (l, rest) := by
  cases l with
  | nil => exact absurd rfl hne
  | cons k v t =>
      obtain ⟨f, rfl⟩ : ∃ f, fuel = f + 1 := by
        cases fuel with
        | zero => exfalso; simp [fuelF] at hfuel
        | succ f => exact ⟨f, rfl⟩
      have hfv : fuelV v ≤ f := by simp [fuelF] at hfuel; omega
      have hft : fuelF t ≤ f := by simp [fuelF] at hfuel; omega
      simp only [parseMembers]
      have hF : serFields gap indent true (.cons k v t) =
          quoteChars k ++ ((if gap = [] then [':'] else [':', ' ']) ++
            (serVal gap indent v ++ serFields gap indent false t)) := by
        simp [serFields, List.append_assoc]
      rw [hF]
      obtain ⟨pre, hpre, hprews⟩ := colon_shape gap
      rw [hpre]
      simp only [quoteChars, List.cons_append, List.append_assoc, List.nil_append]
      rw [skipWs_cons_not (by decide)]
      simp only []
      rw [parseStringBody_escape]
      simp only [List.reverse_nil, List.nil_append]
      rw [show String.mk k.data = k from rfl]
      rw [skipWs_cons_not (by decide)]
      simp only []
      rw [parseVal_ws_append hprews]
      cases t with
      | nil =>
          have hnil : serFields gap indent false .nil = [] := by simp [serFields]
          rw [hnil, List.nil_append]
          rw [roundV v gap indent f _ hgap hind hfv
            (numDelim_ws_append hws2 (numDelim_cons_of (by decide) _))]
          simp only []
          rw [skipWs_append_ws hws2, skipWs_cons_not (by decide)]
          simp
      | cons k2 v2 t2 =>
          rw [serFields_false_eq]
          obtain ⟨st, hst, hstws⟩ := serSep_shape gap indent hind
          rw [hst]
          simp only [List.append_assoc, List.cons_append]
          rw [roundV v gap indent f _ hgap hind hfv (numDelim_cons_of (by decide) _)]
          simp only []
          rw [skipWs_cons_not (by decide)]
          simp only []
          rw [parseMembers_ws_append hstws]
          rw [roundF (.cons k2 v2 t2) gap indent f ws2 rest (by simp) hgap hind hws2 hft]
termination_by sizeOf l
end

theorem intToChars_ne_nil (i : Int) : intToChars i ≠ [] := by
  cases i with
  | ofNat n =>
      have := (natToChars_spec n).1
      simpa [intToChars] using this
  | negSucc n => simp [intToChars]

theorem serSep_len (gap indent : List Char) : 1 ≤ (serSep gap indent).length := by
  by_cases hg : gap = [] <;> simp [serSep, hg]

mutual
/-- The fuel measure is bounded by the serialized length. -/
theorem fuelV_le_len (gap indent : List Char) (j : Json) :
    fuelV j ≤ (serVal gap indent j).length := by
  cases j with
  | null => simp [serVal, fuelV]
  | bool b => cases b <;> simp [serVal, fuelV]
  | num n =>
      have h := List.length_pos.mpr (intToChars_ne_nil n)
      simp only [serVal, fuelV]
      omega
  | str s => simp [serVal, fuelV, quoteChars]
  | arr l =>
      cases l with
      | nil => simp [serVal, fuelV, fuelL]
      | cons h t =>
          by_cases hg : gap = []
          · subst hg
            have hl := fuelL_le_len [] indent (.cons h t)
            simp only [serVal, fuelV, if_pos rfl, if_true, List.length_cons, List.length_append]
            omega
          · have hl := fuelL_le_len gap (indent ++ gap) (.cons h t)
            simp only [serVal, fuelV, if_neg hg]
            simp only [List.length_cons, List.length_append]
            omega
  | obj l =>
      cases l with
      | nil => simp [serVal, fuelV, fuelF]
      | cons k v t =>
          by_cases hg : gap = []
          · subst hg
            have hl := fuelF_le_len [] indent (.cons k v t)
            simp only [serVal, fuelV, if_pos rfl, if_true, List.length_cons, List.length_append]
            omega
          · have hl := fuelF_le_len gap (indent ++ gap) (.cons k v t)
            simp only [serVal, fuelV, if_neg hg]
            simp only [List.length_cons, List.length_append]
            omega
termination_by sizeOf j

/-- Fuel bound for element runs. -/
theorem fuelL_le_len (gap indent : List Char) (l : JsonList) :
    fuelL l ≤ 1 + (serElems gap indent true l).length := by
  cases l with
  | nil => simp [fuelL]
  | cons h t =>
      have hv := fuelV_le_len gap indent h
      cases t with
      | nil =>
          simp only [fuelL, serElems]
          simp only [if_pos rfl, List.nil_append, List.length_append]
          simp [fuelL, serElems]
          omega
      | cons h2 t2 =>
          have ht := fuelL_le_len gap indent (.cons h2 t2)
          have hsep := serSep_len gap indent
          have hE : serElems gap indent true (.cons h (.cons h2 t2)) =
              serVal gap indent h ++ (serSep gap indent ++ serElems gap indent true (.cons h2 t2)) := by
            rw [show serElems gap indent true (.cons h (.cons h2 t2)) =
                serVal gap indent h ++ serElems gap indent false (.cons h2 t2) from by simp [serElems]]
            rw [serElems_false_eq]
          rw [hE]
          simp only [List.length_append, fuelL]
          simp only [fuelL] at ht
          omega
termination_by sizeOf l

/-- Fuel bound for member runs. -/
theorem fuelF_le_len (gap indent : List Char) (l : JsonFields) :
    fuelF l ≤ 1 + (serFields gap indent true l).length := by
  cases l with
  | nil => simp [fuelF]
  | cons k v t =>
      have hv := fuelV_le_len gap indent v
      cases t with
      | nil =>
          have hF : serFields gap indent true (.cons k v .nil) =
              quoteChars k ++ ((if gap = [] then [':'] else [':', ' ']) ++
                (serVal gap indent v ++ serFields gap indent false .nil)) := by
            simp [serFields, List.append_assoc]
          rw [hF, show serFields gap indent false .nil = [] from by simp [serFields]]
          simp only [fuelF, List.length_append, List.append_nil]
          simp [fuelF]
          omega
      | cons k2 v2 t2 =>
          have ht := fuelF_le_len gap indent (.cons k2 v2 t2)
          have hsep := serSep_len gap indent
          have hF : serFields gap indent true (.cons k v (.cons k2 v2 t2)) =
              quoteChars k ++ ((if gap = [] then [':'] else [':', ' ']) ++
                (serVal gap indent v ++ (serSep gap indent ++ serFields gap indent true (.cons k2 v2 t2)))) := by
            rw [show serFields gap indent true (.cons k v (.cons k2 v2 t2)) =
                quoteChars k ++ ((if gap = [] then [':'] else [':', ' ']) ++
                  (serVal gap indent v ++ serFields gap indent false (.cons k2 v2 t2))) from by
              simp [serFields, List.append_assoc]]
            rw [serFields_false_eq]
          rw [hF]
          simp only [List.length_append, fuelF]
          simp only [fuelF] at ht
          omega
termination_by sizeOf l
end

/-- `JSON.parse` undoes `JSON.stringify` for any whitespace-only gap. -/
theorem parse_serialize {gap : List Char} (hgap : wsOnly gap) (j : Json) :
    parseJsonText (String.mk (serVal gap [] j)) = .ok j := by
  unfold parseJsonText
  have h := roundV j gap [] ((String.mk (serVal gap [] j)).length + 1) [] hgap wsOnly_nil
    (le_trans (fuelV_le_len gap [] j) (Nat.le_succ _)) trivial
  rw [List.append_nil] at h
  rw [show (String.mk (serVal gap [] j)).data = serVal gap [] j from rfl, h]
  simp [skipWs]

/-- `JSON.parse(JSON.stringify(v)) = v` (compact form, the signing input). -/
theorem parse_canonicalSerialize (j : Json) : parseJsonText (canonicalSerialize j) = .ok j :=
  parse_serialize wsOnly_nil j

/-- `JSON.parse(JSON.stringify(v, null, 2)) = v` (the stored document form). -/
theorem parse_prettySerialize (j : Json) : parseJsonText (prettySerialize j) = .ok j :=
  parse_serialize wsOnly_two_spaces j

/-- The compact serialization is injective: byte-identical signing input
forces structurally identical documents. -/
theorem canonicalSerialize_inj {a b : Json} (h : canonicalSerialize a = canonicalSerialize b) :
    a = b := by
  have ha := parse_canonicalSerialize a
  rw [h, parse_canonicalSerialize b] at ha
  exact (Except.ok.inj ha).symm

/-! ## Claims -/
/-- C2: for every configuration document `C` and secret `S`, verifying `C`
against the signature produced by signing `C` with `S` returns true:
`verify(C, sign(C,S), S) = true`. -/
theorem claim_C2_sign_verify_roundtrip (d : Json) (s : String) :
    verifySignature (some d) (some (.str (generateSignature (some d) s))) s = true := by
  simp [verifySignature, jsStrictEqStr]

/-- C7: snapshot capture never throws (it is a total function into
`Option`): it returns the captured bytes exactly on the successful-blob
path, and `null` when the render surface is absent or any extraction step
fails. -/
theorem claim_C7_snapshot_soft_failure (env : SnapshotEnv) :
    (env = .noCanvas → captureCanvasSnapshot env = none) ∧
    (∀ b, env = .blobOk b → captureCanvasSnapshot env = some b) ∧
    ((∀ b, env ≠ .blobOk b) → captureCanvasSnapshot env = none) := by
  refine ⟨?_, ?_, ?_⟩
  · rintro rfl; rfl
  · rintro b rfl; rfl
  · intro h
    cases env with
    | blobOk b => exact absurd rfl (h b)
    | noCanvas => rfl
    | rafThrows _ => rfl
    | toDataUrlThrows _ => rfl
    | fetchRejects _ => rfl
    | blobNull => rfl

/-- Witness for C7 at concrete environments: a missing canvas yields `null`
and a successful blob is returned as-is. -/
theorem claim_C7_snapshot_soft_failure_witness :
    captureCanvasSnapshot .noCanvas = none ∧
    captureCanvasSnapshot (.blobOk [137, 80, 78, 71]) = some [137, 80, 78, 71] :=
  ⟨(claim_C7_snapshot_soft_failure .noCanvas).1 rfl,
   (claim_C7_snapshot_soft_failure (.blobOk [137, 80, 78, 71])).2.1 _ rfl⟩

/-- C8: one invocation of the submission client issues exactly one POST
(the network cursor advances by exactly one, never retried); a non-ok HTTP
status yields a failure with the status code surfaced in `error`, and a
network failure yields a failure carrying the underlying error message. -/
theorem claim_C8_single_post_error_surfacing (net : Nat → HttpOutcome) (cursor : Nat) :
    (sendToManufacturer net cursor).2 = cursor + 1 ∧
    (∀ status body, net cursor = .response false status body →
      (sendToManufacturer net cursor).1 =
        ⟨false, none, some ("Server responded with " ++ toString status)⟩) ∧
    (∀ msg, net cursor = .networkError msg →
      (sendToManufacturer net cursor).1 = ⟨false, none, some msg⟩) := by
  refine ⟨rfl, ?_, ?_⟩
  · intro status body h
    simp [sendToManufacturer, interpretResponse, h]
  · intro msg h
    simp [sendToManufacturer, interpretResponse, h]

/-- Witness for C8 at a concrete network: a 500 response surfaces the
status code, a network error surfaces its message, and each call consumes
exactly one outcome. -/
theorem claim_C8_single_post_error_surfacing_witness :
    ((fun _ => HttpOutcome.response false 500 (.ok .null)) 0 =
      HttpOutcome.response false 500 (.ok .null)) ∧
    (sendToManufacturer (fun _ => .response false 500 (.ok .null)) 0).2 = 1 ∧
    (sendToManufacturer (fun _ => .response false 500 (.ok .null)) 0).1 =
      ⟨false, none, some "Server responded with 500"⟩ ∧
    (sendToManufacturer (fun _ => .networkError "Failed to fetch") 0).1 =
      ⟨false, none, some "Failed to fetch"⟩ :=
  ⟨rfl,
   (claim_C8_single_post_error_surfacing (fun _ => .response false 500 (.ok .null)) 0).1,
   (claim_C8_single_post_error_surfacing (fun _ => .response false 500 (.ok .null)) 0).2.1 500 (.ok .null) rfl,
   (claim_C8_single_post_error_surfacing (fun _ => .networkError "Failed to fetch") 0).2.2 "Failed to fetch" rfl⟩

/-- C10: the verifier's result depends only on the `configuration.json`
entry: two wellformed archives whose `configuration.json` entries agree
validate identically, so adding, removing or modifying `preview.png`,
`custom-icon.svg` or `README.txt` never changes the outcome. -/
theorem claim_C10_verifier_reads_only_config (es1 es2 : List (String × EntryData))
    (h : findEntry es1 "configuration.json" = findEntry es2 "configuration.json") :
    validateImportedConfig (.zipOf es1) = validateImportedConfig (.zipOf es2) := by
  simp only [validateImportedConfig, h]

/-- Witness for C10: an archive with a `preview.png` and one without (and a
different README) validate identically when their `configuration.json`
entries agree byte-for-byte. -/
theorem claim_C10_verifier_reads_only_config_witness :
    findEntry [("configuration.json", EntryData.text "not json"), ("preview.png", EntryData.bin [0])]
        "configuration.json" =
      findEntry [("configuration.json", EntryData.text "not json"), ("README.txt", EntryData.text "r")]
        "configuration.json" ∧
    validateImportedConfig (.zipOf [("configuration.json", EntryData.text "not json"),
        ("preview.png", EntryData.bin [0])]) =
      validateImportedConfig (.zipOf [("configuration.json", EntryData.text "not json"),
        ("README.txt", EntryData.text "r")]) :=
  ⟨rfl, claim_C10_verifier_reads_only_config _ _ rfl⟩

set_option maxRecDepth 1000000 in
/-- C1 counterexample: two field-for-field-equal documents whose fields were
inserted in different orders serialize to different bytes and sign to
different signatures — `JSON.stringify` preserves insertion order, so the
signing input is not canonical across field orderings. -/
theorem claim_C1_order_counterexample :
    fieldwiseEqual (Json.obj (.cons "a" (.num 1) (.cons "b" (.num 2) .nil)))
      (Json.obj (.cons "b" (.num 2) (.cons "a" (.num 1) .nil))) ∧
    canonicalSerialize (Json.obj (.cons "a" (.num 1) (.cons "b" (.num 2) .nil))) ≠
      canonicalSerialize (Json.obj (.cons "b" (.num 2) (.cons "a" (.num 1) .nil))) ∧
    generateSignature (some (Json.obj (.cons "a" (.num 1) (.cons "b" (.num 2) .nil)))) defaultSecretKey ≠
      generateSignature (some (Json.obj (.cons "b" (.num 2) (.cons "a" (.num 1) .nil)))) defaultSecretKey := by
  refine ⟨?_, by decide, by decide⟩
  show List.Perm (("a", Json.num 1) :: ("b", Json.num 2) :: []) (("b", Json.num 2) :: ("a", Json.num 1) :: [])
  exact List.Perm.swap _ _ _

/-- C1 amended: `canonicalSerialize` is deterministic and injective — it
produces byte-identical output exactly for structurally identical documents
(same fields in the same insertion order), and byte-identical serialization
forces identical signatures; field-for-field-equal documents with a
different insertion order may serialize (and sign) differently, as the
counterexample shows. -/
theorem claim_C1_serialization_deterministic (d1 d2 : Json) (s : String)
    (h : canonicalSerialize d1 = canonicalSerialize d2) :
    d1 = d2 ∧ generateSignature (some d1) s = generateSignature (some d2) s := by
  have hd := canonicalSerialize_inj h
  subst hd
  exact ⟨rfl, rfl⟩

/-- Witness for the amended C1 at a concrete document. -/
theorem claim_C1_serialization_deterministic_witness :
    canonicalSerialize (Json.obj (.cons "a" (.num 1) .nil)) =
      canonicalSerialize (Json.obj (.cons "a" (.num 1) .nil)) ∧
    (Json.obj (.cons "a" (.num 1) .nil) = Json.obj (.cons "a" (.num 1) .nil) ∧
      generateSignature (some (Json.obj (.cons "a" (.num 1) .nil))) defaultSecretKey =
        generateSignature (some (Json.obj (.cons "a" (.num 1) .nil))) defaultSecretKey) :=
  ⟨rfl, claim_C1_serialization_deterministic _ _ defaultSecretKey rfl⟩

theorem findEntry_head (name : String) (d : EntryData) (rest : List (String × EntryData)) :
    findEntry ((name, d) :: rest) name = some d := by
  simp [findEntry, List.find?]

/-- C4: building with a null snapshot still yields an archive with no
`preview.png` entry whose embedded configuration document verifies:
the verifier returns `valid = true` and the signed payload. -/
theorem claim_C4_null_snapshot_verifies (c : Configuration) (info : CustomerInfo) (now : String) :
    (∀ e ∈ createExportZip c none info now, e.1 ≠ "preview.png") ∧
    validateImportedConfig (.zipOf (createExportZip c none info now)) =
      ⟨true, some (configWithMeta c info now), none⟩ := by
  constructor
  · intro e he
    simp only [createExportZip, List.append_nil, List.nil_append, List.cons_append,
      List.append_assoc, List.mem_cons, List.mem_append] at he
    rcases he with rfl | he | rfl | he
    · exact (by decide : ("configuration.json" : String) ≠ "preview.png")
    · by_cases hcs : hasCustomSvgEntry c.icon
      · simp only [hcs, if_pos, List.mem_singleton] at he
        subst he
        exact (by decide : ("custom-icon.svg" : String) ≠ "preview.png")
      · simp [hcs] at he
    · exact (by decide : ("README.txt" : String) ≠ "preview.png")
    · exact absurd he (List.not_mem_nil e)
  · have hzip : createExportZip c none info now =
        ("configuration.json", .text (prettySerialize (exportDocument c info now))) ::
          ((if hasCustomSvgEntry c.icon then
              [("custom-icon.svg", EntryData.text (c.icon.customSvgPath.getD ""))]
            else []) ++
            [("README.txt", .text (readmeText info (hasCustomSvgEntry c.icon) now))]) := by
      simp [createExportZip]
    rw [hzip]
    simp only [validateImportedConfig, findEntry_head]
    simp only [entryText, parse_prettySerialize]
    simp only [exportDocument, propAccess, lookupField, if_pos rfl,
      if_neg (by decide : ¬("config" : String) = "signature")]
    simp [verifySignature, jsStrictEqStr]

/-- C5 counterexample: a configuration with `icon.shapeType = "custom"`
whose custom shape source is present but empty yields an archive with no
`custom-icon.svg` entry — the builder's truthiness test
`config.icon.customSvgPath && shapeType === 'custom'` skips the empty
string, refuting "always includes". -/
theorem claim_C5_empty_source_counterexample :
    cfgEmptyCustom.icon.shapeType = "custom" ∧
    cfgEmptyCustom.icon.customSvgPath = some "" ∧
    ∀ e ∈ createExportZip cfgEmptyCustom none info0 now0, e.1 ≠ "custom-icon.svg" := by
  refine ⟨rfl, rfl, ?_⟩
  intro e he
  have hcs : hasCustomSvgEntry cfgEmptyCustom.icon = false := by decide
  simp only [createExportZip, hcs, if_neg (by simp : ¬(false = true)), List.append_nil,
    List.nil_append, List.cons_append, List.mem_cons] at he
  rcases he with rfl | rfl | he
  · exact (by decide : ("configuration.json" : String) ≠ "custom-icon.svg")
  · exact (by decide : ("README.txt" : String) ≠ "custom-icon.svg")
  · exact absurd he (List.not_mem_nil e)

/-- C5 amended: an archive for a custom shape includes `custom-icon.svg`
with content equal to the custom shape source provided that source is
nonempty (the code's truthiness check skips an empty source, see the
counterexample); an archive for any non-custom shape never includes that
entry. -/
theorem claim_C5_custom_icon_inclusion (c : Configuration) (snap : Option (List Nat))
    (info : CustomerInfo) (now : String) :
    (∀ svg, c.icon.customSvgPath = some svg → svg ≠ "" → c.icon.shapeType = "custom" →
      ("custom-icon.svg", EntryData.text svg) ∈ createExportZip c snap info now) ∧
    (c.icon.shapeType ≠ "custom" →
      ∀ e ∈ createExportZip c snap info now, e.1 ≠ "custom-icon.svg") := by
  constructor
  · intro svg hsvg hne hshape
    have hcs : hasCustomSvgEntry c.icon = true := by
      simp [hasCustomSvgEntry, hsvg, hne, hshape]
    have hget : c.icon.customSvgPath.getD "" = svg := by simp [hsvg]
    simp only [createExportZip, hcs, if_pos, hget, List.mem_append, List.mem_cons]
    cases snap with
    | none => simp
    | some b => simp
  · intro hshape e he
    have hcs : hasCustomSvgEntry c.icon = false := by
      unfold hasCustomSvgEntry
      cases hsvg : c.icon.customSvgPath with
      | none => rfl
      | some svg =>
          simp only [Bool.and_eq_false_iff]
          right
          simp [hshape]
    cases snap with
    | none =>
        simp only [createExportZip, hcs, Bool.false_eq_true, if_false, List.append_nil,
          List.nil_append, List.cons_append, List.mem_cons, List.mem_append,
          List.mem_singleton, List.not_mem_nil, or_false] at he
        rcases he with rfl | rfl
        · exact (by decide : ("configuration.json" : String) ≠ "custom-icon.svg")
        · exact (by decide : ("README.txt" : String) ≠ "custom-icon.svg")
    | some b =>
        simp only [createExportZip, hcs, Bool.false_eq_true, if_false, List.append_nil,
          List.nil_append, List.cons_append, List.mem_cons, List.mem_append,
          List.mem_singleton, List.not_mem_nil, or_false] at he
        rcases he with rfl | rfl | rfl
        · exact (by decide : ("configuration.json" : String) ≠ "custom-icon.svg")
        · exact (by decide : ("preview.png" : String) ≠ "custom-icon.svg")
        · exact (by decide : ("README.txt" : String) ≠ "custom-icon.svg")

/-- Witness for the amended C5 at a concrete custom configuration: the
archive contains `custom-icon.svg` with exactly the uploaded source. -/
theorem claim_C5_custom_icon_inclusion_witness :
    cfgCustom.icon.customSvgPath = some "<svg/>" ∧
    ("<svg/>" : String) ≠ "" ∧
    cfgCustom.icon.shapeType = "custom" ∧
    ("custom-icon.svg", EntryData.text "<svg/>") ∈ createExportZip cfgCustom none info0 now0 :=
  ⟨rfl, by decide, rfl,
   (claim_C5_custom_icon_inclusion cfgCustom none info0 now0).1 "<svg/>" rfl (by decide) rfl⟩

/-- C6: the verifier is a total function (every failure is caught into a
result): malformed container bytes yield `valid = false` carrying the load
error; a wellformed container without a `configuration.json` entry yields
`valid = false` with exactly the "Missing configuration.json" error; and
every invalid result carries an error message. -/
theorem claim_C6_verifier_never_throws (input : ZipInput) :
    (∀ msg, input = .malformed msg → validateImportedConfig input = ⟨false, none, some msg⟩) ∧
    (∀ entries, input = .zipOf entries → findEntry entries "configuration.json" = none →
      validateImportedConfig input = ⟨false, none, some "Missing configuration.json"⟩) ∧
    ((validateImportedConfig input).valid = false → (validateImportedConfig input).error.isSome = true) := by
  refine ⟨?_, ?_, ?_⟩
  · rintro msg rfl
    rfl
  · rintro entries rfl hfe
    simp [validateImportedConfig, hfe]
  · cases input with
    | malformed msg => intro _; rfl
    | zipOf entries =>
        simp only [validateImportedConfig]
        cases hfe : findEntry entries "configuration.json" with
        | none => simp [hfe]
        | some entry =>
            cases hp : parseJsonText (entryText entry) with
            | error msg => simp [hfe, hp]
            | ok ed =>
                cases hc : propAccess ed "config" with
                | error msg => simp [hfe, hp, hc]
                | ok cfg =>
                    cases hs : propAccess ed "signature" with
                    | error msg => simp [hfe, hp, hc, hs]
                    | ok sig =>
                        by_cases hv : verifySignature cfg sig defaultSecretKey = true
                        · simp [hfe, hp, hc, hs, hv]
                        · simp [hfe, hp, hc, hs, hv]

/-- Witness for C6: the empty archive is missing the document and is
rejected with the identifiable error; malformed bytes surface the load
error. -/
theorem claim_C6_verifier_never_throws_witness :
    findEntry ([] : List (String × EntryData)) "configuration.json" = none ∧
    validateImportedConfig (.zipOf []) = ⟨false, none, some "Missing configuration.json"⟩ ∧
    validateImportedConfig (.malformed "End of data reached") =
      ⟨false, none, some "End of data reached"⟩ :=
  ⟨rfl, (claim_C6_verifier_never_throws (.zipOf [])).2.1 [] rfl rfl,
   (claim_C6_verifier_never_throws (.malformed "End of data reached")).1 _ rfl⟩

/-- C9 counterexample: an archive whose document carries
`signatureVersion: "2.0"` — not the single supported value — is accepted by
the verifier, which applies the pinned v1 algorithm regardless: the
verifier does not select the canonicalization/digest implementation by the
document's `signatureVersion` field (it never reads it). -/
theorem claim_C9_version_ignored_counterexample :
    ("2.0" : String) ≠ "1.0" ∧
    validateImportedConfig (.zipOf [("configuration.json", .text (prettySerialize
      (.obj (.cons "config" (configWithMeta cfgBase info0 now0)
        (.cons "signature"
          (.str (generateSignature (some (configWithMeta cfgBase info0 now0)) defaultSecretKey))
          (.cons "signatureVersion" (.str "2.0") .nil))))))]) =
      ⟨true, some (configWithMeta cfgBase info0 now0), none⟩ := by
  refine ⟨by decide, ?_⟩
  simp only [validateImportedConfig, findEntry_head]
  simp only [entryText, parse_prettySerialize]
  simp only [propAccess, lookupField, if_pos rfl,
    if_neg (by decide : ¬("config" : String) = "signature")]
  simp [verifySignature, jsStrictEqStr]

/-- C9 amended: the verifier never consults `signatureVersion` — archives
differing only in that field validate identically, the single pinned v1
canonicalization/digest being applied in all cases — while the builder
always stamps the single supported value `"1.0"` into the document. -/
theorem claim_C9_version_pinned_not_selected :
    (∀ (c sig v1 v2 : Json),
      validateImportedConfig (.zipOf [("configuration.json", .text (prettySerialize
        (.obj (.cons "config" c (.cons "signature" sig (.cons "signatureVersion" v1 .nil))))))]) =
      validateImportedConfig (.zipOf [("configuration.json", .text (prettySerialize
        (.obj (.cons "config" c (.cons "signature" sig (.cons "signatureVersion" v2 .nil))))))])) ∧
    (∀ (c : Configuration) (info : CustomerInfo) (now : String),
      propAccess (exportDocument c info now) "signatureVersion" = .ok (some (.str "1.0"))) := by
  constructor
  · intro c sig v1 v2
    simp only [validateImportedConfig, findEntry_head]
    simp only [entryText, parse_prettySerialize]
    simp only [propAccess, lookupField, if_pos rfl,
      if_neg (by decide : ¬("config" : String) = "signature")]
    simp only [if_true]
  · intro c info now
    simp [exportDocument, propAccess, lookupField,
      if_neg (by decide : ¬("config" : String) = "signatureVersion"),
      if_neg (by decide : ¬("signature" : String) = "signatureVersion"), if_pos rfl]

theorem processBlock_bounded (st : Hash8) (b : List Nat) : (processBlock st b).bounded := by
  have hM : 0 < M32 := by norm_num [M32]
  simp only [processBlock, Hash8.bounded, add32]
  refine ⟨?_, ?_, ?_, ?_, ?_, ?_, ?_, ?_⟩ <;> exact Nat.mod_lt _ hM

theorem foldl_processBlock_bounded (blocks : List (List Nat)) (st : Hash8) (h : st.bounded) :
    (blocks.foldl processBlock st).bounded := by
  induction blocks generalizing st with
  | nil => exact h
  | cons b bs ih => exact ih _ (processBlock_bounded st b)

theorem sha256Init_bounded : Hash8.bounded sha256Init := by
  refine ⟨?_, ?_, ?_, ?_, ?_, ?_, ?_, ?_⟩ <;> decide

theorem sha256words_length (msg : List Nat) : (sha256words msg).length = 8 := by
  simp [sha256words]

theorem sha256words_bounded (msg : List Nat) : ∀ w ∈ sha256words msg, w < M32 := by
  have h := foldl_processBlock_bounded (chunk64 (sha256pad msg).length (sha256pad msg))
    sha256Init sha256Init_bounded
  obtain ⟨h1, h2, h3, h4, h5, h6, h7, h8⟩ := h
  intro w hw
  simp only [sha256words, List.mem_cons, List.not_mem_nil, or_false] at hw
  rcases hw with rfl | rfl | rfl | rfl | rfl | rfl | rfl | rfl <;> assumption

theorem wordsVal_inj : ∀ (l1 l2 : List Nat), l1.length = l2.length →
    (∀ w ∈ l1, w < M32) → (∀ w ∈ l2, w < M32) → wordsVal l1 = wordsVal l2 → l1 = l2 := by
  intro l1
  induction l1 with
  | nil =>
      intro l2 hlen _ _ _
      cases l2 with
      | nil => rfl
      | cons _ _ => simp at hlen
  | cons w ws ih =>
      intro l2 hlen h1 h2 hval
      cases l2 with
      | nil => simp at hlen
      | cons w2 ws2 =>
          have hw : w < M32 := h1 w (List.mem_cons_self _ _)
          have hw2 : w2 < M32 := h2 w2 (List.mem_cons_self _ _)
          simp only [wordsVal] at hval
          have hM : M32 = 4294967296 := rfl
          rw [hM] at hval hw hw2
          have hhead : w = w2 := by omega
          have htail : wordsVal ws = wordsVal ws2 := by omega
          have := ih ws2 (by simpa using hlen)
            (fun x hx => h1 x (List.mem_cons_of_mem _ hx))
            (fun x hx => h2 x (List.mem_cons_of_mem _ hx)) htail
          rw [hhead, this]

theorem wordsVal_lt (l : List Nat) (h : ∀ w ∈ l, w < M32) : wordsVal l < M32 ^ l.length := by
  induction l with
  | nil => simp [wordsVal]
  | cons w ws ih =>
      have hw := h w (List.mem_cons_self _ _)
      have hws := ih (fun x hx => h x (List.mem_cons_of_mem _ hx))
      simp only [wordsVal, List.length_cons, pow_succ]
      calc w + M32 * wordsVal ws < M32 + M32 * wordsVal ws := by omega
        _ = M32 * (wordsVal ws + 1) := by ring
        _ ≤ M32 * M32 ^ ws.length := Nat.mul_le_mul_left _ (by omega)
        _ = M32 ^ ws.length * M32 := by ring

/-- Equal digest words give equal hex digests. -/
theorem sha256hex_congr {m1 m2 : List Nat} (h : sha256words m1 = sha256words m2) :
    sha256hex m1 = sha256hex m2 := by
  simp [sha256hex, h]

theorem jsOrDefault_some_empty_dflt (s : String) : jsOrDefault (some s) "" = s := by
  by_cases h : s = "" <;> simp [jsOrDefault, h]

theorem extractNotesLen_docFamily (n : Nat) : extractNotesLen (docFamily n) = n := by
  simp [extractNotesLen, docFamily, configWithMeta, Configuration.toFields, JsonFields.append,
    customerJson, infoFam, jsOrDefault_some_empty_dflt, lookupField, cfgBase]

theorem docFamily_inj : Function.Injective docFamily := by
  intro n1 n2 h
  have h1 := extractNotesLen_docFamily n1
  rw [h] at h1
  rw [extractNotesLen_docFamily n2] at h1
  exact h1.symm

/-- The mutated document of the family is a single-field mutation of the
original: replacing the `customer` field maps one family member to
another. -/
theorem docFamily_setField (n1 n2 : Nat) :
    setField (docFamily n1) "customer" (customerJson (infoFam n2) now0) = docFamily n2 := by
  simp [docFamily, configWithMeta, Configuration.toFields, JsonFields.append, setField,
    setFieldIn, cfgBase]

set_option maxHeartbeats 1000000 in
/-- C3 counterexample: the claim as stated is false — verification compares
SHA-256 digests, not documents, and a function from infinitely many
pairwise-distinct signed payloads into finitely many digests must collide
(pigeonhole), so some single-field mutation that changes the serialization
is nevertheless accepted.  (No explicit colliding pair is feasibly
constructible; this refutes universality, not practical tamper
detection.) -/
theorem claim_C3_collision_counterexample : ¬ claimC3Statement := by
  intro hclaim
  have hbound : ∀ n : ℕ,
      wordsVal (sha256words (utf8Encode (canonicalSerialize (docFamily n) ++ defaultSecretKey))) <
        M32 ^ 8 := by
    intro n
    have h1 := wordsVal_lt _ (sha256words_bounded
      (utf8Encode (canonicalSerialize (docFamily n) ++ defaultSecretKey)))
    rwa [sha256words_length] at h1
  obtain ⟨n1, n2, hne, heq⟩ := Finite.exists_ne_map_eq_of_infinite
    (fun n : ℕ => (⟨_, hbound n⟩ : Fin (M32 ^ 8)))
  simp only [Fin.mk.injEq] at heq
  have hwords : sha256words (utf8Encode (canonicalSerialize (docFamily n1) ++ defaultSecretKey)) =
      sha256words (utf8Encode (canonicalSerialize (docFamily n2) ++ defaultSecretKey)) := by
    apply wordsVal_inj _ _ (by rw [sha256words_length, sha256words_length])
      (sha256words_bounded _) (sha256words_bounded _) heq
  have hsig : generateSignature (some (docFamily n1)) defaultSecretKey =
      generateSignature (some (docFamily n2)) defaultSecretKey := by
    simp only [generateSignature, jsonStringifyTop, Option.map_some, jsPlusStr]
    exact sha256hex_congr hwords
  have hser : canonicalSerialize (docFamily n2) ≠ canonicalSerialize (docFamily n1) := by
    intro h
    exact hne (docFamily_inj (canonicalSerialize_inj h)).symm
  have hdf : configWithMeta cfgBase (infoFam n1) now0 = docFamily n1 := rfl
  have happ := hclaim cfgBase (infoFam n1) now0 defaultSecretKey "customer"
    (customerJson (infoFam n2) now0)
  rw [hdf, docFamily_setField n1 n2] at happ
  have hfalse := happ hser
  have htrue : verifySignature (some (docFamily n2))
      (some (.str (generateSignature (some (docFamily n2)) defaultSecretKey)))
      defaultSecretKey = true := by
    simp [verifySignature, jsStrictEqStr]
  rw [← hsig] at htrue
  rw [hfalse] at htrue
  exact absurd htrue (by decide)

/-- C3 amended: a single-field mutation of a signed export payload is
rejected by the verifier whenever its keyed SHA-256 signature differs from
the original's — tamper detection holds exactly up to SHA-256 collisions,
which is the strongest statement the digest comparison supports. -/
theorem claim_C3_tamper_rejected_up_to_collision (c : Configuration) (info : CustomerInfo)
    (now secretKey : String) (k : String) (v : Json)
    (h : generateSignature (some (setField (configWithMeta c info now) k v)) secretKey ≠
      generateSignature (some (configWithMeta c info now)) secretKey) :
    verifySignature (some (setField (configWithMeta c info now) k v))
      (some (.str (generateSignature (some (configWithMeta c info now)) secretKey)))
      secretKey = false := by
  simp only [verifySignature, jsStrictEqStr]
  exact beq_eq_false_iff_ne.mpr h

set_option maxRecDepth 4000000 in
set_option maxHeartbeats 4000000 in
/-- Witness for the amended C3: mutating the `version` field of a concrete
signed payload changes the keyed digest, and the verifier rejects the
mutated document. -/
theorem claim_C3_tamper_rejected_up_to_collision_witness :
    generateSignature (some (setField (configWithMeta cfgBase info0 now0) "version" (.str "2.0.0")))
        defaultSecretKey ≠
      generateSignature (some (configWithMeta cfgBase info0 now0)) defaultSecretKey ∧
    verifySignature (some (setField (configWithMeta cfgBase info0 now0) "version" (.str "2.0.0")))
      (some (.str (generateSignature (some (configWithMeta cfgBase info0 now0)) defaultSecretKey)))
      defaultSecretKey = false :=
  ⟨by decide,
   claim_C3_tamper_rejected_up_to_collision cfgBase info0 now0 defaultSecretKey "version"
     (.str "2.0.0") (by decide)⟩
